import Mathlib

/-!
The DingTalk exporter of fluxcloud.

A shallow embedding of `pkg/exporters/dingtalk.go`: the formatter
`NewDingTalkMessage`, which turns a flux event into a DingTalk markdown
message and resolves whom to mention from the configured `AtNum` directive.

Go strings are modelled by `String` (valid Unicode text). A Go panic is an
`Except.error`, a nil `*DingTalkMessage` is `none`. The parts of the Go
standard library the formatter calls are modelled in the namespaces
`unicode` and `strings`; what cannot be written down here (the upper-case
table beyond ASCII, the time zone database, `fmt.Sprintf` on an arbitrary
format) is taken as a parameter, `Runtime`.
-/

set_option autoImplicit false

/-! ## Package unicode -/

namespace unicode

/-- White space as defined by `unicode.IsSpace`: in Latin-1 the runes
`'\t'`, `'\n'`, `'\v'`, `'\f'`, `'\r'`, `' '`, U+0085 and U+00A0, above it
the runes of the `White_Space` table. -/
def IsSpace (r : Char) : Bool :=
  let n := r.toNat
  if n ≤ 0xFF then
    n == 0x09 || n == 0x0A || n == 0x0B || n == 0x0C || n == 0x0D || n == 0x20
      || n == 0x85 || n == 0xA0
  else
    n == 0x1680 || (0x2000 ≤ n && n ≤ 0x200A) || n == 0x2028 || n == 0x2029
      || n == 0x202F || n == 0x205F || n == 0x3000

/-- The upper-case mapping of the Unicode tables for the runes above
`MaxASCII`, that is `unicode.To(unicode.UpperCase, r)`. The table itself is
not reproduced; `ascii` records the one fact about it used here: the only
ASCII letters that are the upper case of a rune outside ASCII are `I` (of
U+0131) and `S` (of U+017F). -/
structure CaseTable where
  To : Char → Char
  ascii : ∀ r : Char, 0x80 ≤ r.toNat → (To r).toNat < 0x80 → To r = 'I' ∨ To r = 'S'

/-- The rune mapped to upper case, as `unicode.ToUpper`: ASCII letters are
shifted by `'a' - 'A'`, other ASCII runes are unchanged, the rest goes
through the table. -/
def ToUpper (U : CaseTable) (r : Char) : Char :=
  if r.toNat ≤ 0x7F then
    if 0x61 ≤ r.toNat ∧ r.toNat ≤ 0x7A then Char.ofNat (r.toNat - 0x20) else r
  else U.To r

end unicode

/-! ## Package strings -/

namespace strings

/-- The string without its leading and trailing white space, as
`strings.TrimSpace`. -/
def TrimSpace (s : String) : String :=
  ⟨(s.data.dropWhile unicode.IsSpace).rdropWhile unicode.IsSpace⟩

/-- The string with every rune mapped to its upper case, as
`strings.ToUpper`. -/
def ToUpper (U : unicode.CaseTable) (s : String) : String :=
  ⟨s.data.map (unicode.ToUpper U)⟩

/-- Whether `sub` starts at some position of the list of runes. -/
def occursIn (sub : List Char) : List Char → Bool
  | [] => sub.isEmpty
  | c :: t => sub.isPrefixOf (c :: t) || occursIn sub t

/-- Whether `substr` is within `s`, as `strings.Contains`. -/
def Contains (s substr : String) : Bool :=
  occursIn substr.data s.data

/-- The loop of `strings.Split` for a non-empty separator: the pieces between
the leftmost non-overlapping occurrences of `sep`. `skip` counts the runes of
a matched separator still to be passed over, `acc` holds the current piece in
reverse. -/
def genSplit (sep : List Char) : Nat → List Char → List Char → List (List Char)
  | _, acc, [] => [acc.reverse]
  | skip + 1, acc, _ :: t => genSplit sep skip acc t
  | 0, acc, c :: t =>
    if sep.isPrefixOf (c :: t) then acc.reverse :: genSplit sep (sep.length - 1) [] t
    else genSplit sep 0 (c :: acc) t

/-- The substrings of `s` separated by `sep`, as `strings.Split`; with an
empty separator the string is split after each rune. -/
def Split (s sep : String) : List String :=
  if sep.data = [] then s.data.map (fun c => String.mk [c])
  else (genSplit sep.data 0 [] s.data).map String.mk

/-- The elements concatenated with `sep` between them, as `strings.Join`. -/
def Join : List String → String → String
  | [], _ => ""
  | [a], _ => a
  | a :: b :: rest, sep => a ++ sep ++ Join (b :: rest) sep

end strings

/-! ## The flux event, as far as the exporter reads it -/

/-- An instant, in seconds since the Unix epoch; the layout the exporter
prints has no finer field. -/
structure Time where
  unix : Int
  deriving DecidableEq, Repr

/-- The ways in which the formatter can panic. -/
inductive Panic where
  | nilDereference
  | typeAssertion
  | indexOutOfRange
  deriving DecidableEq, Repr

namespace resource

/-- A `resource.ID`: a struct around an implementation, kept as the string
the implementation prints. The zero value, which the decoder gives for the
empty string, has no implementation. -/
structure ID where
  impl : Option String
  deriving DecidableEq, Repr

/-- The method `String()`, promoted from the implementation: on the zero
value the call goes through a nil interface and panics. -/
def ID.String (id : ID) : Except Panic String :=
  match id.impl with
  | none => .error .nilDereference
  | some s => .ok s

end resource

/-- A value whose `String()` method cannot fail (`image.Ref`), kept as the
string that method returns. -/
structure Stringer where
  String : String
  deriving DecidableEq, Repr

/-- The container of a change: `resource.Container`. -/
structure Container where
  Name : String
  Image : Stringer
  deriving DecidableEq, Repr

/-- One image change of an automated release: `update.Change`. -/
structure Change where
  WorkloadID : resource.ID
  Container : Container
  ImageID : Stringer
  deriving DecidableEq, Repr

/-- The spec of an automated release: `update.Automated`. -/
structure Automated where
  Changes : List Change
  deriving DecidableEq, Repr

/-- Metadata of an automated release event. -/
structure AutoReleaseEventMetadata where
  Spec : Automated
  deriving DecidableEq, Repr

/-- One error of a sync: `event.ResourceError`. -/
structure ResourceError where
  ID : resource.ID
  Path : String
  Error : String
  deriving DecidableEq, Repr

/-- Metadata of a sync event; only the error list is read. -/
structure SyncEventMetadata where
  Errors : List ResourceError
  deriving DecidableEq, Repr

/-- The implementations of the interface `event.EventMetadata` in package
event. -/
inductive EventMetadata where
  | Commit
  | Sync (m : SyncEventMetadata)
  | Release
  | AutoRelease (m : AutoReleaseEventMetadata)
  | Unknown
  deriving DecidableEq, Repr

/-- The constant `event.EventCommit`. -/
def EventCommit : String := "commit"
/-- The constant `event.EventSync`. -/
def EventSync : String := "sync"
/-- The constant `event.EventRelease`. -/
def EventRelease : String := "release"
/-- The constant `event.EventAutoRelease`. -/
def EventAutoRelease : String := "autorelease"

/-- The method `Type()` of the interface. -/
def EventMetadata.Type : EventMetadata → String
  | .Commit => EventCommit
  | .Sync _ => EventSync
  | .Release => EventRelease
  | .AutoRelease _ => EventAutoRelease
  | .Unknown => "unknown"

/-- The type assertion `.(*event.AutoReleaseEventMetadata)`; `none` when the
dynamic type is another one. -/
def EventMetadata.assertAutoRelease : EventMetadata → Option AutoReleaseEventMetadata
  | .AutoRelease m => some m
  | _ => none

/-- The type assertion `.(*event.SyncEventMetadata)`; `none` when the
dynamic type is another one. -/
def EventMetadata.assertSync : EventMetadata → Option SyncEventMetadata
  | .Sync m => some m
  | _ => none

/-- The fields of `event.Event` the exporter reads. `Metadata` is an
interface value: `none` is the nil interface. -/
structure Event where
  ServiceIDs : List resource.ID
  StartedAt : Time
  EndedAt : Time
  Metadata : Option EventMetadata
  deriving DecidableEq, Repr

/-- The message handed to an exporter: `msg.Message`; only the event is
read. -/
structure Message where
  Event : Event
  deriving DecidableEq, Repr

/-! ## The exporter -/

/-- What the standard library contributes beyond the functions modelled
above. -/
structure Runtime where
  /-- The upper-case table of package unicode. -/
  Upper : unicode.CaseTable
  /-- The instant shown in the zone `name` and printed in `layout`:
  `t.In(loc).Format(layout)` for the location `time.LoadLocation(name)`
  finds in the zone database. -/
  FormatIn : String → String → Time → String
  /-- The result of `fmt.Sprintf(format)`, called with no operand. -/
  Sprintf0 : String → String

/-- The configuration of the exporter. -/
structure DingTalk where
  Access : String
  Secret : String
  AtNum : String
  deriving DecidableEq, Repr

/-- The field `Markdown` of a message. -/
structure DingTalkMarkdown where
  Title : String
  Text : String
  deriving DecidableEq, Repr

/-- The field `At` of a message. A nil slice is the empty list. -/
structure DingTalkAt where
  AtMobiles : List String
  AtUserIds : List String
  IsAtAll : Bool
  deriving DecidableEq, Repr

/-- The message posted to the webhook. -/
structure DingTalkMessage where
  Msgtype : String
  Markdown : DingTalkMarkdown
  At : DingTalkAt
  deriving DecidableEq, Repr

/-- The zero value `new(DingTalkMessage)` points to. -/
def DingTalkMessage.zero : DingTalkMessage :=
  { Msgtype := "", Markdown := { Title := "", Text := "" },
    At := { AtMobiles := [], AtUserIds := [], IsAtAll := false } }

/-- The closure `f1` of `NewDingTalkMessage`: the time in the zone
Asia/Shanghai, printed as `2006-01-02 15:04:05`. -/
def f1 (rt : Runtime) (t : Time) : String :=
  rt.FormatIn "Asia/Shanghai" "2006-01-02 15:04:05" t

/-- The method `NewDingTalkMessage`: the message for a flux event, `none`
when the event is not reported. A `%v` of `fmt.Sprintf` with a string operand
writes the string, so the two bodies are concatenations. -/
def NewDingTalkMessage (rt : Runtime) (d : DingTalk) (message : Message) :
    Except Panic (Option DingTalkMessage) :=
  let autoReleaseMessage := DingTalkMessage.zero
  match message.Event.Metadata with
  | none => .error .nilDereference
  | some msgMetadta =>
    let msgType := msgMetadta.Type
    let startTime := f1 rt message.Event.StartedAt
    let endTime := f1 rt message.Event.EndedAt
    if msgType = EventAutoRelease then
      match msgMetadta.assertAutoRelease with
      | none => .error .typeAssertion
      | some a =>
        match a.Spec.Changes[0]? with
        | none => .error .indexOutOfRange
        | some c =>
          let newImage := c.ImageID.String
          match a.Spec.Changes[0]? with
          | none => .error .indexOutOfRange
          | some c2 =>
            let oldImage := c2.Container.Image.String
            match message.Event.ServiceIDs.mapM (fun v => v.String) with
            | .error p => .error p
            | .ok workloadArr =>
              let appStr := rt.Sprintf0 (strings.Join workloadArr "\n\n")
              .ok (some { autoReleaseMessage with
                Msgtype := "markdown"
                Markdown := {
                  Title := "EventAutoRelease"
                  Text := "<font color=#008000 size=5 >上线通知 </font>  \n\n **开始时间**：" ++ startTime
                    ++ " \n\n **结束时间**：" ++ endTime ++ "  \n\n **上线应用**：\n\n " ++ appStr ++ " "
                    ++ "\n\n **新镜像**：" ++ newImage ++ " \n\n **旧镜像**: " ++ oldImage } })
    else if msgType = EventSync then
      match msgMetadta.assertSync with
      | none => .error .typeAssertion
      | some s =>
        if s.Errors.length > 0 then
          let errArr := s.Errors.map (fun v => v.Error)
          let nonTrimSpaceAtNum := strings.TrimSpace d.AtNum
          let (atStr, msgAt) : String × DingTalkAt :=
            if nonTrimSpaceAtNum = "" then
              ("", autoReleaseMessage.At)
            else if strings.ToUpper rt.Upper nonTrimSpaceAtNum = "ALL" then
              ("", { autoReleaseMessage.At with IsAtAll := true })
            else
              if strings.Contains (strings.ToUpper rt.Upper d.AtNum) "ALL" then
                ("", autoReleaseMessage.At)
              else if !strings.Contains (strings.ToUpper rt.Upper d.AtNum) "ALL"
                  && nonTrimSpaceAtNum != "" && strings.Contains nonTrimSpaceAtNum "  " then
                ("", autoReleaseMessage.At)
              else if !strings.Contains (strings.ToUpper rt.Upper d.AtNum) "ALL"
                  && nonTrimSpaceAtNum != "" && !strings.Contains nonTrimSpaceAtNum "  " then
                let atArr := strings.Split (strings.TrimSpace d.AtNum) " "
                ("@" ++ strings.Join atArr " @", { autoReleaseMessage.At with AtMobiles := atArr })
              else
                ("", autoReleaseMessage.At)
          let errStr := strings.Join errArr "\n\n"
          .ok (some {
            Msgtype := "markdown"
            Markdown := {
              Title := "Sync errors"
              Text := "<font color=#FF0000 size=5 >同步错误，开发忽略！！！ </font>    \n\n **错误信息**：" ++ errStr
                ++ " \n\n " ++ atStr ++ " " }
            At := msgAt })
        else .ok none
    else .ok none

/-! ## A concrete runtime, to evaluate the model -/

/-- A case table that knows the two runes with an ASCII upper case and
leaves the other runes unchanged. -/
def sampleTable : unicode.CaseTable where
  To := fun r => if r.toNat = 0x131 then 'I' else if r.toNat = 0x17F then 'S' else r
  ascii := by
    intro r h1 h2
    by_cases ha : r.toNat = 0x131
    · left; simp [ha]
    · by_cases hb : r.toNat = 0x17F
      · right; simp [ha, hb]
      · simp only [ha, hb, if_false] at h2; omega

/-- A runtime for evaluation: times are printed as their number of seconds,
a format without operand is returned as it is. -/
def sampleRuntime : Runtime where
  Upper := sampleTable
  FormatIn := fun _ _ t => toString t.unix
  Sprintf0 := fun s => s

/-- A sync event with the given error strings. -/
def syncEvent (errs : List String) : Message :=
  { Event :=
    { ServiceIDs := []
      StartedAt := ⟨0⟩
      EndedAt := ⟨0⟩
      Metadata := some (.Sync { Errors := errs.map (fun e => ⟨⟨none⟩, "", e⟩) }) } }

/-- An automated release event with the given changes. -/
def autoReleaseEvent (ids : List resource.ID) (changes : List Change) : Message :=
  { Event :=
    { ServiceIDs := ids
      StartedAt := ⟨0⟩
      EndedAt := ⟨0⟩
      Metadata := some (.AutoRelease { Spec := { Changes := changes } }) } }


/-! ## The words of the specification -/

/-- Whether three runes spell ALL, in any mix of upper and lower case. -/
def spellsALL (c1 c2 c3 : Char) : Bool :=
  (c1 == 'a' || c1 == 'A') && (c2 == 'l' || c2 == 'L') && (c3 == 'l' || c3 == 'L')

/-- Whether the string is ALL, compared without regard to case. -/
def equalFoldALL (s : String) : Bool :=
  match s.data with
  | [c1, c2, c3] => spellsALL c1 c2 c3
  | _ => false

/-- Whether ALL, in any mix of cases, starts at some position of the runes. -/
def foldALLIn : List Char → Bool
  | [] => false
  | c :: t => (match t with
      | c2 :: c3 :: _ => spellsALL c c2 c3
      | _ => false) || foldALLIn t

/-- Whether the string contains ALL, compared without regard to case. -/
def containsFoldALL (s : String) : Bool :=
  foldALLIn s.data

/-! ## Bytes, hashing and encoding for the signature -/

/-- The UTF-8 encoding of a rune, given by its code point. -/
def utf8EncodeRune (n : Nat) : List Nat :=
  if n < 0x80 then [n]
  else if n < 0x800 then [0xC0 + n / 0x40, 0x80 + n % 0x40]
  else if n < 0x10000 then [0xE0 + n / 0x1000, 0x80 + n / 0x40 % 0x40, 0x80 + n % 0x40]
  else [0xF0 + n / 0x40000, 0x80 + n / 0x1000 % 0x40, 0x80 + n / 0x40 % 0x40, 0x80 + n % 0x40]

/-- The conversion `[]byte(s)`: the bytes of the string, each a number below
256. -/
def bytesOf (s : String) : List Nat :=
  s.data.flatMap (fun c => utf8EncodeRune c.toNat)

namespace sha256

/-- The round constants of SHA-256. -/
def K : List Nat :=
  [0x428a2f98, 0x71374491, 0xb5c0fbcf, 0xe9b5dba5, 0x3956c25b, 0x59f111f1, 0x923f82a4,
   0xab1c5ed5, 0xd807aa98, 0x12835b01, 0x243185be, 0x550c7dc3, 0x72be5d74, 0x80deb1fe,
   0x9bdc06a7, 0xc19bf174, 0xe49b69c1, 0xefbe4786, 0x0fc19dc6, 0x240ca1cc, 0x2de92c6f,
   0x4a7484aa, 0x5cb0a9dc, 0x76f988da, 0x983e5152, 0xa831c66d, 0xb00327c8, 0xbf597fc7,
   0xc6e00bf3, 0xd5a79147, 0x06ca6351, 0x14292967, 0x27b70a85, 0x2e1b2138, 0x4d2c6dfc,
   0x53380d13, 0x650a7354, 0x766a0abb, 0x81c2c92e, 0x92722c85, 0xa2bfe8a1, 0xa81a664b,
   0xc24b8b70, 0xc76c51a3, 0xd192e819, 0xd6990624, 0xf40e3585, 0x106aa070, 0x19a4c116,
   0x1e376c08, 0x2748774c, 0x34b0bcb5, 0x391c0cb3, 0x4ed8aa4a, 0x5b9cca4f, 0x682e6ff3,
   0x748f82ee, 0x78a5636f, 0x84c87814, 0x8cc70208, 0x90befffa, 0xa4506ceb, 0xbef9a3f7,
   0xc67178f2]

/-- The initial hash value of SHA-256. -/
def init : List Nat :=
  [0x6a09e667, 0xbb67ae85, 0x3c6ef372, 0xa54ff53a, 0x510e527f, 0x9b05688c, 0x1f83d9ab,
   0x5be0cd19]

/-- A 32-bit word rotated right by `n` bits. -/
def rotr (x n : Nat) : Nat :=
  (x / 2 ^ n + x * 2 ^ (32 - n)) % 2 ^ 32

/-- The words of the message schedule after the first sixteen: `n` more words
are appended to `w`. -/
def extend : Nat → List Nat → List Nat
  | 0, w => w
  | n + 1, w =>
    let i := w.length
    let w15 := w.getD (i - 15) 0
    let w2 := w.getD (i - 2) 0
    let s0 := rotr w15 7 ^^^ rotr w15 18 ^^^ (w15 / 2 ^ 3)
    let s1 := rotr w2 17 ^^^ rotr w2 19 ^^^ (w2 / 2 ^ 10)
    extend n (w ++ [(w.getD (i - 16) 0 + s0 + w.getD (i - 7) 0 + s1) % 2 ^ 32])

/-- The big-endian 32-bit words of a list of bytes. -/
def words : List Nat → List Nat
  | b0 :: b1 :: b2 :: b3 :: rest =>
    (b0 * 2 ^ 24 + b1 * 2 ^ 16 + b2 * 2 ^ 8 + b3) :: words rest
  | _ => []

/-- The working variables `a` to `h` of the compression function. -/
structure Vars where
  a : Nat
  b : Nat
  c : Nat
  d : Nat
  e : Nat
  f : Nat
  g : Nat
  h : Nat

/-- One round of the compression function, with round constant `k` and
schedule word `w`. -/
def round (v : Vars) (k w : Nat) : Vars :=
  let s1 := rotr v.e 6 ^^^ rotr v.e 11 ^^^ rotr v.e 25
  let ch := (v.e &&& v.f) ^^^ ((v.e ^^^ 0xffffffff) &&& v.g)
  let t1 := (v.h + s1 + ch + k + w) % 2 ^ 32
  let s0 := rotr v.a 2 ^^^ rotr v.a 13 ^^^ rotr v.a 22
  let maj := (v.a &&& v.b) ^^^ (v.a &&& v.c) ^^^ (v.b &&& v.c)
  let t2 := (s0 + maj) % 2 ^ 32
  { a := (t1 + t2) % 2 ^ 32, b := v.a, c := v.b, d := v.c,
    e := (v.d + t1) % 2 ^ 32, f := v.e, g := v.f, h := v.g }

/-- The rounds over the round constants and schedule words, in step. -/
def rounds (v : Vars) : List Nat → List Nat → Vars
  | k :: ks, w :: ws => rounds (round v k w) ks ws
  | _, _ => v

/-- The hash value after one more block of 64 bytes. -/
def block (h : List Nat) (p : List Nat) : List Nat :=
  let v0 : Vars :=
    { a := h.getD 0 0, b := h.getD 1 0, c := h.getD 2 0, d := h.getD 3 0,
      e := h.getD 4 0, f := h.getD 5 0, g := h.getD 6 0, h := h.getD 7 0 }
  let v := rounds v0 K (extend 48 (words p))
  [(v0.a + v.a) % 2 ^ 32, (v0.b + v.b) % 2 ^ 32, (v0.c + v.c) % 2 ^ 32, (v0.d + v.d) % 2 ^ 32,
   (v0.e + v.e) % 2 ^ 32, (v0.f + v.f) % 2 ^ 32, (v0.g + v.g) % 2 ^ 32, (v0.h + v.h) % 2 ^ 32]

/-- The hash value after `n` blocks taken from the front of the bytes. -/
def blocks : Nat → List Nat → List Nat → List Nat
  | 0, h, _ => h
  | n + 1, h, p => blocks n (block h (p.take 64)) (p.drop 64)

/-- The number as `n` bytes, most significant first. -/
def bigEndian : Nat → Nat → List Nat
  | 0, _ => []
  | n + 1, x => x / 256 ^ n % 256 :: bigEndian n x

/-- The message with the padding of SHA-256: the byte 0x80, zero bytes up to
56 modulo 64, and the length in bits as 8 bytes. -/
def padded (data : List Nat) : List Nat :=
  data ++ 0x80 :: List.replicate ((119 - data.length % 64) % 64) 0
    ++ bigEndian 8 (8 * data.length % 2 ^ 64)

/-- The SHA-256 checksum of the data, as 32 bytes: `sha256.Sum256`. -/
def Sum256 (data : List Nat) : List Nat :=
  let p := padded data
  (blocks (p.length / 64) init p).flatMap (bigEndian 4)

/-- The running hash `sha256.New()` returns, of interface `hash.Hash`: it is
held by the bytes written to it so far. -/
structure digest where
  written : List Nat

/-- The constructor `sha256.New`. -/
def New : digest := ⟨[]⟩

/-- The method `Write`. -/
def digest.Write (d : digest) (p : List Nat) : digest := ⟨d.written ++ p⟩

/-- The method `Sum`: the checksum of what was written, appended to `b`. -/
def digest.Sum (d : digest) (b : List Nat) : List Nat := b ++ Sum256 d.written

/-- The method `Reset`. -/
def digest.Reset (_ : digest) : digest := ⟨[]⟩

/-- The method `BlockSize`. -/
def digest.BlockSize (_ : digest) : Nat := 64

end sha256

namespace hmac

/-- The keyed hash `hmac.New` returns. -/
structure HMAC where
  opad : List Nat
  ipad : List Nat
  outer : sha256.digest
  inner : sha256.digest

/-- The built-in `copy` into a fresh slice of `n` zero bytes. -/
def copyInto (n : Nat) (src : List Nat) : List Nat :=
  src.take n ++ List.replicate (n - src.length) 0

/-- The constructor `hmac.New(sha256.New, key)`. -/
def New (key : List Nat) : HMAC :=
  let outer := sha256.New
  let inner := sha256.New
  let blocksize := inner.BlockSize
  let (outer, key) :=
    if key.length > blocksize then
      let outer := outer.Write key
      (outer, outer.Sum [])
    else (outer, key)
  let ipad := (copyInto blocksize key).map (fun b => b ^^^ 0x36)
  let opad := (copyInto blocksize key).map (fun b => b ^^^ 0x5c)
  { opad := opad, ipad := ipad, outer := outer, inner := inner.Write ipad }

/-- The method `Write`. -/
def HMAC.Write (h : HMAC) (p : List Nat) : HMAC :=
  { h with inner := h.inner.Write p }

/-- The method `Sum`. -/
def HMAC.Sum (h : HMAC) (b : List Nat) : List Nat :=
  let origLen := b.length
  let b := h.inner.Sum b
  let outer := h.outer.Reset
  let outer := outer.Write h.opad
  let outer := outer.Write (b.drop origLen)
  outer.Sum (b.take origLen)

end hmac

namespace base64

/-- The alphabet of the standard encoding. -/
def encodeStd : String :=
  "ABCDEFGHIJKLMNOPQRSTUVWXYZabcdefghijklmnopqrstuvwxyz0123456789+/"

/-- The character of the alphabet for a group of six bits. -/
def digit (i : Nat) : Char :=
  encodeStd.data.getD i '='

/-- The standard encoding, with padding, of a list of bytes. -/
def encode : List Nat → List Char
  | [] => []
  | [a] => [digit (a / 4), digit (a % 4 * 16), '=', '=']
  | [a, b] => [digit (a / 4), digit (a % 4 * 16 + b / 16), digit (b % 16 * 4), '=']
  | a :: b :: c :: rest =>
    digit (a / 4) :: digit (a % 4 * 16 + b / 16) :: digit (b % 16 * 4 + c / 64)
      :: digit (c % 64) :: encode rest

/-- The method `base64.StdEncoding.EncodeToString`. -/
def EncodeToString (src : List Nat) : String :=
  ⟨encode src⟩

end base64

namespace strconv

/-- The number in base 10, with a leading minus sign when negative:
`strconv.FormatInt(i, 10)`, which is also what the verb `%d` prints. -/
def FormatInt (i : Int) : String :=
  toString i

end strconv

/-- The method `sign`: the signature of the timestamp `t` under the secret of
the configuration. -/
def DingTalk.sign (d : DingTalk) (t : Int) : String :=
  let payload := strconv.FormatInt t ++ "\n" ++ d.Secret
  let h := hmac.New (bytesOf d.Secret)
  let h := h.Write (bytesOf payload)
  let data := h.Sum []
  base64.EncodeToString data

/-- HMAC-SHA256 as RFC 2104 defines it: the key, hashed when longer than a
block, is filled with zero bytes to a block of 64; the text is hashed after
the key xor ipad, and that checksum is hashed after the key xor opad. -/
def hmacSHA256 (key text : List Nat) : List Nat :=
  let k := if key.length > 64 then sha256.Sum256 key else key
  let k := k ++ List.replicate (64 - k.length) 0
  sha256.Sum256 (k.map (fun b => b ^^^ 0x5c)
    ++ sha256.Sum256 (k.map (fun b => b ^^^ 0x36) ++ text))

/-! ## The request -/

namespace url

/-- The query parameters, `url.Values`: the keys, each with the value set for
it, in the order in which the keys were first set. -/
abbrev Values := List (String × String)

/-- The method `Set`: the key gets the value, replacing the one it has. -/
def Values.Set (v : Values) (key value : String) : Values :=
  if v.any (fun kv => kv.1 == key) then
    v.map (fun kv => if kv.1 == key then (key, value) else kv)
  else v ++ [(key, value)]

/-- The method `Get`: the value of the key, if it is set. -/
def Values.Get (v : Values) (key : String) : Option String :=
  (v.find? (fun kv => kv.1 == key)).map (fun kv => kv.2)

/-- The two hexadecimal digits of a byte, in upper case. -/
def hexByte (b : Nat) : List Char :=
  ["0123456789ABCDEF".data.getD (b / 16) '0', "0123456789ABCDEF".data.getD (b % 16) '0']

/-- A byte as `url.QueryEscape` writes it: letters, digits and `-_.~` stay, a
space becomes `+`, every other byte is `%` and two hexadecimal digits. -/
def escapeByte (b : Nat) : List Char :=
  if (0x41 ≤ b ∧ b ≤ 0x5A) ∨ (0x61 ≤ b ∧ b ≤ 0x7A) ∨ (0x30 ≤ b ∧ b ≤ 0x39)
      ∨ b = 0x2D ∨ b = 0x5F ∨ b = 0x2E ∨ b = 0x7E then [Char.ofNat b]
  else if b = 0x20 then ['+']
  else '%' :: hexByte b

/-- The function `url.QueryEscape`. -/
def QueryEscape (s : String) : String :=
  ⟨(bytesOf s).flatMap escapeByte⟩

/-- The parameters inserted in the order of their keys. -/
def insertSorted (kv : String × String) : Values → Values
  | [] => [kv]
  | x :: rest => if kv.1 < x.1 then kv :: x :: rest else x :: insertSorted kv rest

/-- The method `Encode`: `key=value` pairs, escaped, sorted by key and joined
by `&`. -/
def Values.Encode (v : Values) : String :=
  strings.Join ((v.foldr insertSorted []).map
    (fun kv => QueryEscape kv.1 ++ "=" ++ QueryEscape kv.2)) "&"

end url

namespace json

/-- A JSON text, by its structure. The members of an object are in the order
in which the encoder writes them. -/
inductive Value where
  | null
  | bool (b : Bool)
  | string (s : String)
  | array (elems : List Value)
  | object (members : List (String × Value))

/-- The names of the members of an object; no names for another value. -/
def Value.keys : Value → List String
  | .object members => members.map (fun kv => kv.1)
  | _ => []

/-- The member of an object with the given name. -/
def Value.member (v : Value) (name : String) : Option Value :=
  match v with
  | .object members => (members.find? (fun kv => kv.1 == name)).map (fun kv => kv.2)
  | _ => none

/-- The encoding of a `[]string`: `null` for the nil slice, which is the
empty list here, an array of strings otherwise. -/
def strings : List String → Value
  | [] => .null
  | a :: rest => .array ((a :: rest).map Value.string)

/-- The function `json.Marshal` on a `*DingTalkMessage`: an object with one
member for each field, named by the tag of the field, the tag being taken as
it is written. No value of this type makes the encoder fail. The result is
kept as a structure; how the encoder escapes the runes of a string is not
modelled. -/
def Marshal (m : DingTalkMessage) : Except String Value :=
  .ok (.object
    [("msgtype", .string m.Msgtype),
     ("markdown", .object
        [("title", .string m.Markdown.Title),
         ("text", .string m.Markdown.Text)]),
     ("at", .object
        [("atMobiles", strings m.At.AtMobiles),
         ("atUserIds ", strings m.At.AtUserIds),
         ("isAtAll", .bool m.At.IsAtAll)])])

end json

namespace http

/-- The fields of an `http.Request` the exporter sets. -/
structure Request where
  Method : String
  URL : String
  RawQuery : String
  Header : List (String × String)
  Body : json.Value

/-- The constant `http.MethodPost`. -/
def MethodPost : String := "POST"

/-- The function `http.NewRequest`, for a method and a URL that are well
formed, as the two constants of the exporter are: it returns the request and
no error. -/
def NewRequest (method url : String) (body : json.Value) : Except String Request :=
  .ok { Method := method, URL := url, RawQuery := "", Header := [], Body := body }

/-- What comes of `http.DefaultClient.Do(req)` and of reading the body of the
response: the call fails, or it gives a response with a status, whose body is
read in full or fails to be read. -/
inductive Exchange where
  | failure (err : String)
  | response (status : Nat) (body : Except String String)

end http

/-- What the exporter meets when it sends: the reading of the clock, should
`time.Now()` be called, in nanoseconds since the Unix epoch, and the answer
of the network to a request. -/
structure World where
  now : Int
  Do : http.Request → http.Exchange

/-- The value of an `int64` computation: the number modulo 2^64, taken
between -2^63 and 2^63 - 1. -/
def wrapInt64 (x : Int) : Int :=
  (x + 2 ^ 63) % 2 ^ 64 - 2 ^ 63

/-- The method `Unix` of a time: the seconds since the Unix epoch, the
fraction of a second dropped. -/
def Unix (now : Int) : Int :=
  now / 1000000000

/-- The expression `time.Now().Unix() * 1000` of `Send`. -/
def timestamp (now : Int) : Int :=
  wrapInt64 (Unix now * 1000)

/-- The query parameters of `Send`, built in its lines 75 to 81: the access
token, and with a secret the timestamp and its signature. -/
def DingTalk.queryParams (d : DingTalk) (now : Int) : url.Values :=
  let params : url.Values := []
  let params := params.Set "access_token" d.Access
  if d.Secret ≠ "" then
    let t := timestamp now
    let params := params.Set "timestamp" (strconv.FormatInt t)
    params.Set "sign" (d.sign t)
  else params

/-- What a call of `Send` leaves behind when it returns: the request it
handed to the HTTP client, if it came to that, and the error it returns,
`none` being nil. -/
structure Sent where
  request : Option http.Request
  err : Option String

/-- The method `Send`. The context and the client it is given are not used:
the request goes to `http.DefaultClient`. What it prints is left out. -/
def DingTalk.Send (rt : Runtime) (w : World) (d : DingTalk) (message : Message) :
    Except Panic Sent :=
  let params := d.queryParams w.now
  match NewDingTalkMessage rt d message with
  | .error p => .error p
  | .ok none => .ok { request := none, err := none }
  | .ok (some dingMessage) =>
    match json.Marshal dingMessage with
    | .error err => .ok { request := none, err := some err }
    | .ok buf =>
      match http.NewRequest http.MethodPost "https://oapi.dingtalk.com/robot/send" buf with
      | .error err => .ok { request := none, err := some err }
      | .ok req =>
        let req := { req with
          RawQuery := params.Encode
          Header := req.Header ++ [("Content-Type", "application/json;charset=utf-8")] }
        match w.Do req with
        | .failure _ => .ok { request := some req, err := none }
        | .response _ body =>
          match body with
          | .error _ => .ok { request := some req, err := none }
          | .ok _ => .ok { request := some req, err := none }

/-- A world for evaluation: the clock stands at the given reading and every
request is answered with status 200 and the body `ok`. -/
def sampleWorld (now : Int) : World where
  now := now
  Do := fun _ => .response 200 (.ok "ok")

/-! ## Times in a zone -/

namespace time

/-- A zone of a location: its abbreviation, its seconds east of UTC, and
whether it is daylight saving time. -/
structure zone where
  name : String
  offset : Int
  isDST : Bool
  deriving DecidableEq, Repr

/-- A transition of a location: from the second `when` of Unix time on, the
zone with the given index is in force. -/
structure zoneTrans where
  when : Int
  index : Nat
  deriving DecidableEq, Repr

/-- A `time.Location`: the zones, the transitions in the order of time, and
the zone in force after the last transition when the rule for the years
after it has no daylight saving time. -/
structure Location where
  name : String
  zone : List time.zone
  tx : List zoneTrans
  extend : Option time.zone
  deriving DecidableEq, Repr

/-- Whether a transition leads to the first zone. -/
def Location.firstZoneUsed (l : Location) : Bool :=
  l.tx.any (fun t => t.index == 0)

/-- The index of the zone for the times before the first transition: the
first zone if no transition leads to it; else, if the first transition leads
to daylight saving time, the nearest zone before that one which is not
daylight saving time; else the first zone which is not daylight saving time;
else the first zone. -/
def Location.lookupFirstZone (l : Location) : Nat :=
  let isDST := fun (zi : Nat) => match l.zone.get? zi with
    | some z => z.isDST
    | none => false
  if !l.firstZoneUsed then 0
  else
    let near : Option Nat := match l.tx with
      | t :: _ =>
        if isDST t.index then (List.range t.index).reverse.find? (fun zi => !isDST zi)
        else none
      | [] => none
    match near with
    | some zi => zi
    | none =>
      match (List.range l.zone.length).find? (fun zi => !isDST zi) with
      | some zi => zi
      | none => 0

/-- The seconds east of UTC in force in the location at a second of Unix
time: those of the zone of the last transition at or before it. -/
def Location.lookup (l : Location) (sec : Int) : Int :=
  match l.zone with
  | [] => 0
  | z0 :: _ =>
    let before := l.tx.filter (fun t => t.when ≤ sec)
    match before.getLast? with
    | none => (l.zone.getD l.lookupFirstZone z0).offset
    | some cur =>
      match before.length == l.tx.length, l.extend with
      | true, some z => z.offset
      | _, _ => (l.zone.getD cur.index z0).offset

/-- The location `time.LoadLocation("Asia/Shanghai")` returns, as release
2023c of the IANA time zone database has it: local mean time until 1901,
then China Standard Time, with daylight saving time in 1919, from 1940 to
1949 and from 1986 to 1991. -/
def Shanghai : Location where
  name := "Asia/Shanghai"
  zone := [⟨"LMT", 29143, false⟩, ⟨"CDT", 32400, true⟩, ⟨"CST", 28800, false⟩]
  tx :=
    [⟨-2177481943, 2⟩, ⟨-1600675200, 1⟩, ⟨-1585904400, 2⟩, ⟨-933667200, 1⟩,
     ⟨-922093200, 2⟩, ⟨-908870400, 1⟩, ⟨-888829200, 2⟩, ⟨-881049600, 1⟩,
     ⟨-767869200, 2⟩, ⟨-745833600, 1⟩, ⟨-733827600, 2⟩, ⟨-716889600, 1⟩,
     ⟨-699613200, 2⟩, ⟨-683884800, 1⟩, ⟨-670669200, 2⟩, ⟨-652348800, 1⟩,
     ⟨-650019600, 2⟩, ⟨515527200, 1⟩, ⟨527014800, 2⟩, ⟨545162400, 1⟩,
     ⟨558464400, 2⟩, ⟨577216800, 1⟩, ⟨589914000, 2⟩, ⟨608666400, 1⟩,
     ⟨621968400, 2⟩, ⟨640116000, 1⟩, ⟨653418000, 2⟩, ⟨671565600, 1⟩,
     ⟨684867600, 2⟩]
  extend := some ⟨"CST", 28800, false⟩

/-- The days of a common year before each month, and in the year. -/
def daysBefore : List Int :=
  [0, 31, 59, 90, 120, 151, 181, 212, 243, 273, 304, 334, 365]

/-- Whether the year is a leap year. -/
def isLeap (year : Int) : Bool :=
  year % 4 == 0 && (year % 100 != 0 || year % 400 == 0)

/-- A date of the calendar. -/
structure Date where
  year : Int
  month : Int
  day : Int
  deriving DecidableEq, Repr

/-- The year of a day and the day of the year, counted from zero, the days
being counted from the first of January of the year 1: cycles of 400 years,
of 100 years and of 4 years are cut off, then the years of the last cycle.
This is `absDate` asked for the year alone. -/
def yearDay (days : Int) : Int × Int :=
  let d := days
  let n := d / 146097
  let y := 400 * n
  let d := d - 146097 * n
  let n := d / 36524
  let n := n - n / 4
  let y := y + 100 * n
  let d := d - 36524 * n
  let n := d / 1461
  let y := y + 4 * n
  let d := d - 1461 * n
  let n := d / 365
  let n := n - n / 4
  let y := y + n
  let d := d - 365 * n
  (y + 1, d)

/-- The date of a day of a year, the day counted from zero: the rest of
`absDate`. The month is estimated from the day of the year as if every month
had 31 days, and is one more when the day is not before the end of the
estimated month. -/
def yearDate (year day : Int) : Date :=
  if isLeap year && day == 31 + 29 - 1 then ⟨year, 2, 29⟩
  else
    let day := if isLeap year && day > 31 + 29 - 1 then day - 1 else day
    let month := day / 31
    let stop := daysBefore.getD (month + 1).toNat 0
    if day ≥ stop then ⟨year, month + 2, day - stop + 1⟩
    else ⟨year, month + 1, day - daysBefore.getD month.toNat 0 + 1⟩

/-- The function `absDate`: the date of a day, the days being counted from
the first of January of the year 1. -/
def absDate (days : Int) : Date :=
  yearDate (yearDay days).1 (yearDay days).2

/-- The function `time.FixedZone`: the location that is always in the zone
of the given name and seconds east of UTC. -/
def FixedZone (name : String) (offset : Int) : Location where
  name := name
  zone := [⟨name, offset, false⟩]
  tx := []
  extend := none

/-- The decimal digit of a number below ten. -/
def digit (n : Nat) : Char :=
  Char.ofNat (48 + n)

/-- The decimal digits of a number, at most as many as the fuel. -/
def decimal : Nat → Nat → List Char
  | 0, _ => []
  | fuel + 1, n => if n < 10 then [digit n] else decimal fuel (n / 10) ++ [digit (n % 10)]

/-- The function `appendInt`: the number in decimal, after a minus sign if
it is negative, with zeros in front of the digits up to the width. -/
def appendInt (x : Int) (width : Nat) : List Char :=
  let u := x.natAbs
  let digits := decimal 20 u
  (if x < 0 then ['-'] else []) ++ List.replicate (width - digits.length) '0' ++ digits

end time

/-- A time set in a location: the result of `t.In(loc)`. -/
structure LocalTime where
  unix : Int
  loc : time.Location
  deriving DecidableEq, Repr

/-- The method `In`. -/
def Time.In (t : Time) (loc : time.Location) : LocalTime :=
  { unix := t.unix, loc := loc }

/-- The seconds of the time since the first of January of the year 1, on the
clock of its location. -/
def LocalTime.abs (t : LocalTime) : Int :=
  t.unix + t.loc.lookup t.unix + 62135596800

/-- The method `Date`. -/
def LocalTime.Date (t : LocalTime) : time.Date :=
  time.absDate (t.abs / 86400)

/-- The hour of the day. -/
def LocalTime.Hour (t : LocalTime) : Int :=
  t.abs % 86400 / 3600

/-- The minute of the hour. -/
def LocalTime.Minute (t : LocalTime) : Int :=
  t.abs % 3600 / 60

/-- The second of the minute. -/
def LocalTime.Second (t : LocalTime) : Int :=
  t.abs % 60

/-- The method `Format` for the layout `2006-01-02 15:04:05`: the year in
four digits, the month, the day, the hour, the minute and the second in two
digits each. -/
def LocalTime.Format (t : LocalTime) : String :=
  let date := t.Date
  ⟨time.appendInt date.year 4 ++ ['-'] ++ time.appendInt date.month 2 ++ ['-']
    ++ time.appendInt date.day 2 ++ [' '] ++ time.appendInt t.Hour 2 ++ [':']
    ++ time.appendInt t.Minute 2 ++ [':'] ++ time.appendInt t.Second 2⟩

/-! The words of the specification for times: the text of a date and a time
of day with each digit in its place, and the day on which a date falls. -/

/-- The text `YYYY-MM-DD HH:MM:SS` of six numbers, the year in four digits
and the others in two, with zeros in front. -/
def dateTimeText (year month day hour minute second : Nat) : String :=
  ⟨[time.digit (year / 1000 % 10), time.digit (year / 100 % 10),
    time.digit (year / 10 % 10), time.digit (year % 10), '-',
    time.digit (month / 10 % 10), time.digit (month % 10), '-',
    time.digit (day / 10 % 10), time.digit (day % 10), ' ',
    time.digit (hour / 10 % 10), time.digit (hour % 10), ':',
    time.digit (minute / 10 % 10), time.digit (minute % 10), ':',
    time.digit (second / 10 % 10), time.digit (second % 10)]⟩

/-- The days of the month in a year of the Gregorian calendar. -/
def daysIn (year month : Int) : Int :=
  if month = 2 then (if time.isLeap year then 29 else 28)
  else if month = 4 ∨ month = 6 ∨ month = 9 ∨ month = 11 then 30
  else 31

/-- The days of the months of a year before a month. -/
def daysBeforeMonth (year month : Int) : Int :=
  ((List.range (month.toNat - 1)).map (fun m => daysIn year (m + 1))).sum

/-- The days from the first of January of the year 1 to a date of the
Gregorian calendar: the days of the years before, of the months before, and
of the month. -/
def dayOf (date : time.Date) : Int :=
  365 * (date.year - 1) + (date.year - 1) / 4 - (date.year - 1) / 100
    + (date.year - 1) / 400
    + daysBeforeMonth date.year date.month
    + (date.day - 1)

/-- A runtime for evaluation that prints times as the standard library does
with the zone Asia/Shanghai; the exporter asks for no other zone and no
other layout. -/
def shanghaiRuntime : Runtime where
  Upper := sampleTable
  FormatIn := fun _ _ t => (t.In time.Shanghai).Format
  Sprintf0 := fun s => s

/-- An automated release event with one change, started and ended at the
given seconds of Unix time. -/
def timedAutoRelease (startedAt endedAt : Int) : Message :=
  { Event :=
    { ServiceIDs := [⟨some "ns:deployment/a"⟩]
      StartedAt := ⟨startedAt⟩
      EndedAt := ⟨endedAt⟩
      Metadata := some (.AutoRelease
        { Spec := { Changes := [⟨⟨some "ns:deployment/a"⟩, ⟨"c", ⟨"img:1"⟩⟩, ⟨"img:2"⟩⟩] } }) } }

/-! ## Upper case and white space -/

theorem toNat_ofNat_ascii : ∀ m, m < 128 → (Char.ofNat m).toNat = m := by decide

theorem char_eq_of_toNat {c : Char} {n : Nat} (h : c.toNat = n) : c = Char.ofNat n := by
  rw [← h, Char.ofNat_toNat]

theorem ToUpper_eq_iff (U : unicode.CaseTable) (c u : Char)
    (hu : 0x41 ≤ u.toNat ∧ u.toNat ≤ 0x5A) (hI : u ≠ 'I') (hS : u ≠ 'S') :
    unicode.ToUpper U c = u ↔ c = u ∨ c.toNat = u.toNat + 0x20 := by
  unfold unicode.ToUpper
  by_cases h1 : c.toNat ≤ 0x7F
  · rw [if_pos h1]
    by_cases h2 : 0x61 ≤ c.toNat ∧ c.toNat ≤ 0x7A
    · rw [if_pos h2]
      constructor
      · intro h
        right
        have := congrArg Char.toNat h
        rw [toNat_ofNat_ascii _ (by omega)] at this
        omega
      · rintro (h | h)
        · subst h; omega
        · have hc := char_eq_of_toNat h
          rw [h]
          have : u.toNat + 0x20 - 0x20 = u.toNat := by omega
          rw [this, Char.ofNat_toNat]
    · rw [if_neg h2]
      constructor
      · intro h; exact Or.inl h
      · rintro (h | h)
        · exact h
        · omega
  · rw [if_neg h1]
    constructor
    · intro h
      have h3 : (U.To c).toNat < 0x80 := by rw [h]; omega
      rcases U.ascii c (by omega) h3 with h4 | h4
      · exact absurd (h.symm.trans h4) hI
      · exact absurd (h.symm.trans h4) hS
    · rintro (h | h)
      · subst h; omega
      · omega

theorem ToUpper_beq_A (U : unicode.CaseTable) (c : Char) :
    (unicode.ToUpper U c == 'A') = (c == 'a' || c == 'A') := by
  have h := ToUpper_eq_iff U c 'A' (by decide) (by decide) (by decide)
  rw [Bool.eq_iff_iff]
  simp only [beq_iff_eq, Bool.or_eq_true]
  rw [h]
  constructor
  · rintro (h | h)
    · exact Or.inr h
    · exact Or.inl (char_eq_of_toNat h)
  · rintro (h | h)
    · subst h; right; decide
    · exact Or.inl h

theorem ToUpper_beq_L (U : unicode.CaseTable) (c : Char) :
    (unicode.ToUpper U c == 'L') = (c == 'l' || c == 'L') := by
  have h := ToUpper_eq_iff U c 'L' (by decide) (by decide) (by decide)
  rw [Bool.eq_iff_iff]
  simp only [beq_iff_eq, Bool.or_eq_true]
  rw [h]
  constructor
  · rintro (h | h)
    · exact Or.inr h
    · exact Or.inl (char_eq_of_toNat h)
  · rintro (h | h)
    · subst h; right; decide
    · exact Or.inl h

theorem occursIn_ALL_map (U : unicode.CaseTable) (l : List Char) :
    strings.occursIn ['A', 'L', 'L'] (l.map (unicode.ToUpper U)) = foldALLIn l := by
  have hA : ∀ c, ('A' == unicode.ToUpper U c) = (c == 'a' || c == 'A') := fun c => by
    rw [BEq.comm]; exact ToUpper_beq_A U c
  have hL : ∀ c, ('L' == unicode.ToUpper U c) = (c == 'l' || c == 'L') := fun c => by
    rw [BEq.comm]; exact ToUpper_beq_L U c
  induction l with
  | nil => rfl
  | cons c t ih =>
    simp only [List.map_cons, strings.occursIn, foldALLIn, ih]
    congr 1
    match t with
    | [] => simp [List.isPrefixOf]
    | [c2] => simp [List.isPrefixOf]
    | c2 :: c3 :: r =>
      simp only [List.map_cons, List.isPrefixOf, spellsALL, hA, hL,
        Bool.and_true, Bool.and_assoc]

theorem Contains_ToUpper_ALL (U : unicode.CaseTable) (s : String) :
    strings.Contains (strings.ToUpper U s) "ALL" = containsFoldALL s :=
  occursIn_ALL_map U s.data

theorem ToUpper_eq_ALL (U : unicode.CaseTable) (t : String) :
    strings.ToUpper U t = "ALL" ↔ equalFoldALL t = true := by
  have hd : strings.ToUpper U t = "ALL" ↔
      t.data.map (unicode.ToUpper U) = ['A', 'L', 'L'] := by
    constructor
    · intro h; exact congrArg String.data h
    · intro h; exact String.ext h
  rw [hd]
  unfold equalFoldALL
  match t.data with
  | [] => simp
  | [_] => simp
  | [_, _] => simp
  | [c1, c2, c3] =>
    simp only [List.map_cons, List.map_nil, List.cons.injEq, and_true, spellsALL,
      Bool.and_eq_true, ← ToUpper_beq_A U, ← ToUpper_beq_L U, beq_iff_eq, and_assoc]
  | _ :: _ :: _ :: _ :: _ => simp

theorem spellsALL_space_left {c1 : Char} (c2 c3 : Char) (h : unicode.IsSpace c1 = true) :
    spellsALL c1 c2 c3 = false := by
  have ha : c1 ≠ 'a' := by rintro rfl; revert h; decide
  have hA : c1 ≠ 'A' := by rintro rfl; revert h; decide
  simp [spellsALL, ha, hA]

theorem spellsALL_space_right (c1 c2 : Char) {c3 : Char} (h : unicode.IsSpace c3 = true) :
    spellsALL c1 c2 c3 = false := by
  have ha : c3 ≠ 'l' := by rintro rfl; revert h; decide
  have hA : c3 ≠ 'L' := by rintro rfl; revert h; decide
  simp [spellsALL, ha, hA]

theorem foldALLIn_cons_space {c : Char} (t : List Char) (h : unicode.IsSpace c = true) :
    foldALLIn (c :: t) = foldALLIn t := by
  match t with
  | [] => simp [foldALLIn]
  | [_] => simp [foldALLIn]
  | c2 :: c3 :: r => simp [foldALLIn, spellsALL_space_left c2 c3 h]

theorem foldALLIn_cons (c : Char) (t : List Char) :
    foldALLIn (c :: t) = ((match t with
      | c2 :: c3 :: _ => spellsALL c c2 c3
      | _ => false) || foldALLIn t) := rfl

theorem foldALLIn_concat_space (l : List Char) {x : Char} (h : unicode.IsSpace x = true) :
    foldALLIn (l ++ [x]) = foldALLIn l := by
  induction l with
  | nil => simp [foldALLIn]
  | cons c t ih =>
    rw [List.cons_append, foldALLIn_cons, foldALLIn_cons c t, ih]
    congr 1
    match t with
    | [] => rfl
    | [c2] => exact spellsALL_space_right c c2 h
    | c2 :: c3 :: r => rfl

theorem foldALLIn_dropWhile (l : List Char) :
    foldALLIn (l.dropWhile unicode.IsSpace) = foldALLIn l := by
  induction l with
  | nil => rfl
  | cons c t ih =>
    by_cases h : unicode.IsSpace c = true
    · rw [List.dropWhile_cons_of_pos h, ih, foldALLIn_cons_space t h]
    · rw [List.dropWhile_cons_of_neg h]

theorem foldALLIn_rdropWhile (l : List Char) :
    foldALLIn (l.rdropWhile unicode.IsSpace) = foldALLIn l := by
  induction l using List.reverseRecOn with
  | nil => simp [List.rdropWhile_nil]
  | append_singleton t x ih =>
    by_cases h : unicode.IsSpace x = true
    · rw [List.rdropWhile_concat_pos _ _ _ h, ih, foldALLIn_concat_space t h]
    · rw [List.rdropWhile_concat_neg _ _ _ h]

theorem containsFoldALL_TrimSpace (s : String) :
    containsFoldALL (strings.TrimSpace s) = containsFoldALL s := by
  simp only [containsFoldALL, strings.TrimSpace, foldALLIn_rdropWhile, foldALLIn_dropWhile]

theorem equalFoldALL_data {t : String} (h : equalFoldALL t = true) :
    ∃ c1 c2 c3, t.data = [c1, c2, c3] ∧ spellsALL c1 c2 c3 = true := by
  unfold equalFoldALL at h
  split at h
  · next c1 c2 c3 hd => exact ⟨c1, c2, c3, hd, h⟩
  · exact absurd h (by decide)

theorem containsFoldALL_of_equalFoldALL {t : String} (h : equalFoldALL t = true) :
    containsFoldALL t = true := by
  obtain ⟨c1, c2, c3, hd, hs⟩ := equalFoldALL_data h
  unfold containsFoldALL
  rw [hd, foldALLIn_cons]
  simp [hs]

theorem ne_empty_of_containsFoldALL {t : String} (h : containsFoldALL t = true) :
    t ≠ "" := by
  rintro rfl
  revert h
  decide

theorem no_double_space_of_equalFoldALL {t : String} (h : equalFoldALL t = true) :
    strings.Contains t "  " = false := by
  obtain ⟨c1, c2, c3, hd, hs⟩ := equalFoldALL_data h
  unfold strings.Contains
  rw [hd]
  simp only [spellsALL, Bool.and_eq_true, Bool.or_eq_true, beq_iff_eq] at hs
  obtain ⟨⟨h1, h2⟩, h3⟩ := hs
  rcases h1 with rfl | rfl <;> rcases h2 with rfl | rfl <;> rcases h3 with rfl | rfl <;> decide

theorem TrimSpace_eq_empty {s : String} (h : ∀ c ∈ s.data, unicode.IsSpace c = true) :
    strings.TrimSpace s = "" := by
  apply String.ext
  show (s.data.dropWhile unicode.IsSpace).rdropWhile unicode.IsSpace = []
  rw [List.dropWhile_eq_nil_iff.mpr h]
  rfl

/-! ## The formatter -/

theorem EventSync_ne_EventAutoRelease : EventSync ≠ EventAutoRelease := by decide

/-- Claim C1: For every directive and every sync event with at least one error the
formatter returns a message, of type markdown and titled Sync errors. -/
theorem sync_errors_always_reported (rt : Runtime) (d : DingTalk) (message : Message)
    (s : SyncEventMetadata) (hm : message.Event.Metadata = some (.Sync s))
    (he : s.Errors ≠ []) :
    ∃ m, NewDingTalkMessage rt d message = .ok (some m) ∧ m.Msgtype = "markdown"
      ∧ m.Markdown.Title = "Sync errors" := by
  have hlen : s.Errors.length > 0 := List.length_pos.mpr he
  simp only [NewDingTalkMessage, hm, EventMetadata.Type, EventSync_ne_EventAutoRelease,
    if_false, if_true, EventMetadata.assertSync, hlen]
  exact ⟨_, rfl, rfl, rfl⟩

theorem sync_errors_always_reported_witness :
    (syncEvent ["disk full"]).Event.Metadata
        = some (.Sync { Errors := [⟨⟨none⟩, "", "disk full"⟩] })
      ∧ ([⟨⟨none⟩, "", "disk full"⟩] : List ResourceError) ≠ []
      ∧ ∃ m, NewDingTalkMessage sampleRuntime ⟨"tok", "", "123  all"⟩ (syncEvent ["disk full"])
          = .ok (some m) ∧ m.Msgtype = "markdown" ∧ m.Markdown.Title = "Sync errors" :=
  ⟨rfl, by decide,
    sync_errors_always_reported sampleRuntime ⟨"tok", "", "123  all"⟩ (syncEvent ["disk full"])
      { Errors := [⟨⟨none⟩, "", "disk full"⟩] } rfl (by decide)⟩

/-- Claim C2: For every sync event with at least one error the body of the message
contains the error strings, in their order, joined by two newlines, as one
contiguous part. -/
theorem sync_body_lists_errors (rt : Runtime) (d : DingTalk) (message : Message)
    (s : SyncEventMetadata) (hm : message.Event.Metadata = some (.Sync s))
    (he : s.Errors ≠ []) :
    ∃ m pre post, NewDingTalkMessage rt d message = .ok (some m)
      ∧ m.Markdown.Text
        = pre ++ strings.Join (s.Errors.map (fun v => v.Error)) "\n\n" ++ post := by
  have hlen : s.Errors.length > 0 := List.length_pos.mpr he
  have key : ∀ (head errStr : String) (x : String × DingTalkAt),
      ∃ m pre post, (Except.ok (some
          { Msgtype := "markdown"
            Markdown := { Title := "Sync errors", Text := head ++ errStr ++ " \n\n " ++ x.1 ++ " " }
            At := x.2 }) : Except Panic (Option DingTalkMessage)) = .ok (some m)
        ∧ m.Markdown.Text = pre ++ errStr ++ post :=
    fun head errStr x => ⟨_, head, " \n\n " ++ x.1 ++ " ", rfl, by
      simp only [String.append_assoc]⟩
  simp only [NewDingTalkMessage, hm, EventMetadata.Type, EventSync_ne_EventAutoRelease,
    if_false, if_true, EventMetadata.assertSync, hlen]
  exact key _ _ _

theorem sync_body_lists_errors_witness :
    (syncEvent ["disk full", "no route"]).Event.Metadata
        = some (.Sync { Errors := [⟨⟨none⟩, "", "disk full"⟩, ⟨⟨none⟩, "", "no route"⟩] })
      ∧ ([⟨⟨none⟩, "", "disk full"⟩, ⟨⟨none⟩, "", "no route"⟩] : List ResourceError) ≠ []
      ∧ ∃ m pre post,
          NewDingTalkMessage sampleRuntime ⟨"tok", "", "a b"⟩ (syncEvent ["disk full", "no route"])
            = .ok (some m)
          ∧ m.Markdown.Text = pre ++ "disk full\n\nno route" ++ post :=
  ⟨rfl, by decide,
    sync_body_lists_errors sampleRuntime ⟨"tok", "", "a b"⟩ (syncEvent ["disk full", "no route"])
      { Errors := [⟨⟨none⟩, "", "disk full"⟩, ⟨⟨none⟩, "", "no route"⟩] } rfl (by decide)⟩

/-- Claim C3: An automated release event without any image change makes the
formatter panic with an index out of range, whatever the configuration. -/
theorem autorelease_without_changes_panics (rt : Runtime) (d : DingTalk)
    (ids : List resource.ID) :
    NewDingTalkMessage rt d (autoReleaseEvent ids []) = .error .indexOutOfRange := by
  rfl

/-- Claim C4, at the event that breaks it: an event without metadata, as the
decoder leaves an event of a kind that has none, is of a kind other than
automated release and sync, and the formatter returns nothing for it, not
even "no message": the call of `Type()` on the nil interface panics, whatever
the configuration. -/
theorem event_without_metadata_panics (rt : Runtime) (d : DingTalk)
    (ids : List resource.ID) (startedAt endedAt : Time) :
    NewDingTalkMessage rt d ⟨⟨ids, startedAt, endedAt, none⟩⟩ = .error .nilDereference := by
  rfl

/-- A sync event without errors and an event whose metadata is of a kind
other than automated release and sync yield no message, whatever the
configuration. -/
theorem no_message_for_clean_sync_and_other_kinds (rt : Runtime) (d : DingTalk)
    (message : Message) (md : EventMetadata) (hm : message.Event.Metadata = some md)
    (h : (∃ s, md = .Sync s ∧ s.Errors = [])
      ∨ (md.Type ≠ EventAutoRelease ∧ md.Type ≠ EventSync)) :
    NewDingTalkMessage rt d message = .ok none := by
  rcases h with ⟨s, rfl, hs⟩ | ⟨h1, h2⟩
  · simp [NewDingTalkMessage, hm, EventMetadata.Type, EventSync_ne_EventAutoRelease,
      EventMetadata.assertSync, hs]
  · simp [NewDingTalkMessage, hm, h1, h2]

theorem no_message_for_clean_sync_and_other_kinds_witness :
    ((syncEvent []).Event.Metadata = some (.Sync { Errors := [] })
      ∧ NewDingTalkMessage sampleRuntime ⟨"tok", "", "ALL"⟩ (syncEvent []) = .ok none)
    ∧ (EventMetadata.Commit.Type ≠ EventAutoRelease ∧ EventMetadata.Commit.Type ≠ EventSync
      ∧ NewDingTalkMessage sampleRuntime ⟨"tok", "", "ALL"⟩
          ⟨⟨[], ⟨0⟩, ⟨60⟩, some .Commit⟩⟩ = .ok none) :=
  ⟨⟨rfl, no_message_for_clean_sync_and_other_kinds sampleRuntime ⟨"tok", "", "ALL"⟩
      (syncEvent []) (.Sync { Errors := [] }) rfl (Or.inl ⟨_, rfl, rfl⟩)⟩,
    ⟨by decide, by decide, no_message_for_clean_sync_and_other_kinds sampleRuntime
      ⟨"tok", "", "ALL"⟩ ⟨⟨[], ⟨0⟩, ⟨60⟩, some .Commit⟩⟩ .Commit rfl
      (Or.inr ⟨by decide, by decide⟩)⟩⟩

/-- Claim C5: A directive whose trimmed form is not empty, does not contain ALL in
any mix of cases and has no two consecutive spaces resolves, for a sync event
with errors, to the tokens of the trimmed directive split on single spaces:
they are the mobiles to mention, in order, and not everybody is mentioned. -/
theorem mention_specific (rt : Runtime) (d : DingTalk) (message : Message)
    (s : SyncEventMetadata) (hm : message.Event.Metadata = some (.Sync s))
    (he : s.Errors ≠ [])
    (h1 : strings.TrimSpace d.AtNum ≠ "")
    (h2 : containsFoldALL (strings.TrimSpace d.AtNum) = false)
    (h3 : strings.Contains (strings.TrimSpace d.AtNum) "  " = false) :
    ∃ m, NewDingTalkMessage rt d message = .ok (some m)
      ∧ m.At.AtMobiles = strings.Split (strings.TrimSpace d.AtNum) " "
      ∧ m.At.IsAtAll = false := by
  have hlen : s.Errors.length > 0 := List.length_pos.mpr he
  have h4 : ¬ strings.ToUpper rt.Upper (strings.TrimSpace d.AtNum) = "ALL" := by
    intro h
    have := containsFoldALL_of_equalFoldALL ((ToUpper_eq_ALL _ _).mp h)
    rw [h2] at this
    exact absurd this (by decide)
  have h5 : strings.Contains (strings.ToUpper rt.Upper d.AtNum) "ALL" = false := by
    rw [Contains_ToUpper_ALL, ← containsFoldALL_TrimSpace, h2]
  simp [NewDingTalkMessage, hm, EventMetadata.Type, EventSync_ne_EventAutoRelease,
    EventMetadata.assertSync, hlen, DingTalkMessage.zero, h1, h3, h4, h5]

theorem mention_specific_witness :
    strings.TrimSpace "a b c" ≠ ""
      ∧ containsFoldALL (strings.TrimSpace "a b c") = false
      ∧ strings.Contains (strings.TrimSpace "a b c") "  " = false
      ∧ ∃ m, NewDingTalkMessage sampleRuntime ⟨"tok", "", "a b c"⟩ (syncEvent ["disk full"])
          = .ok (some m)
        ∧ m.At.AtMobiles = ["a", "b", "c"] ∧ m.At.IsAtAll = false :=
  ⟨by decide, by decide, by decide,
    mention_specific sampleRuntime ⟨"tok", "", "a b c"⟩ (syncEvent ["disk full"])
      { Errors := [⟨⟨none⟩, "", "disk full"⟩] } rfl (by decide) (by decide) (by decide)
      (by decide)⟩

/-- Claim C6: A directive whose trimmed form is ALL in any mix of cases resolves,
for a sync event with errors, to everybody: IsAtAll is set and no mobile is
listed. -/
theorem mention_all (rt : Runtime) (d : DingTalk) (message : Message)
    (s : SyncEventMetadata) (hm : message.Event.Metadata = some (.Sync s))
    (he : s.Errors ≠ [])
    (h1 : equalFoldALL (strings.TrimSpace d.AtNum) = true) :
    ∃ m, NewDingTalkMessage rt d message = .ok (some m)
      ∧ m.At.IsAtAll = true ∧ m.At.AtMobiles = [] := by
  have hlen : s.Errors.length > 0 := List.length_pos.mpr he
  have h2 : strings.TrimSpace d.AtNum ≠ "" :=
    ne_empty_of_containsFoldALL (containsFoldALL_of_equalFoldALL h1)
  have h3 : strings.ToUpper rt.Upper (strings.TrimSpace d.AtNum) = "ALL" :=
    (ToUpper_eq_ALL _ _).mpr h1
  simp [NewDingTalkMessage, hm, EventMetadata.Type, EventSync_ne_EventAutoRelease,
    EventMetadata.assertSync, hlen, DingTalkMessage.zero, h2, h3]

theorem mention_all_witness :
    equalFoldALL (strings.TrimSpace "  aLL ") = true
      ∧ ∃ m, NewDingTalkMessage sampleRuntime ⟨"tok", "", "  aLL "⟩ (syncEvent ["disk full"])
          = .ok (some m)
        ∧ m.At.IsAtAll = true ∧ m.At.AtMobiles = [] :=
  ⟨by decide,
    mention_all sampleRuntime ⟨"tok", "", "  aLL "⟩ (syncEvent ["disk full"])
      { Errors := [⟨⟨none⟩, "", "disk full"⟩] } rfl (by decide) (by decide)⟩

/-- Claim C7: A directive that contains ALL in some mix of cases while its trimmed
form is not ALL resolves, for a sync event with errors, to nobody: IsAtAll is
not set and no mobile is listed. -/
theorem mention_mixed_all_is_none (rt : Runtime) (d : DingTalk) (message : Message)
    (s : SyncEventMetadata) (hm : message.Event.Metadata = some (.Sync s))
    (he : s.Errors ≠ [])
    (h1 : containsFoldALL d.AtNum = true)
    (h2 : equalFoldALL (strings.TrimSpace d.AtNum) = false) :
    ∃ m, NewDingTalkMessage rt d message = .ok (some m)
      ∧ m.At.IsAtAll = false ∧ m.At.AtMobiles = [] := by
  have hlen : s.Errors.length > 0 := List.length_pos.mpr he
  have h3 : strings.TrimSpace d.AtNum ≠ "" :=
    ne_empty_of_containsFoldALL ((containsFoldALL_TrimSpace _).trans h1)
  have h4 : ¬ strings.ToUpper rt.Upper (strings.TrimSpace d.AtNum) = "ALL" := by
    intro h
    rw [(ToUpper_eq_ALL _ _).mp h] at h2
    exact absurd h2 (by decide)
  have h5 : strings.Contains (strings.ToUpper rt.Upper d.AtNum) "ALL" = true := by
    rw [Contains_ToUpper_ALL, h1]
  simp [NewDingTalkMessage, hm, EventMetadata.Type, EventSync_ne_EventAutoRelease,
    EventMetadata.assertSync, hlen, DingTalkMessage.zero, h3, h4, h5]

theorem mention_mixed_all_is_none_witness :
    containsFoldALL "123 ALL" = true
      ∧ equalFoldALL (strings.TrimSpace "123 ALL") = false
      ∧ ∃ m, NewDingTalkMessage sampleRuntime ⟨"tok", "", "123 ALL"⟩ (syncEvent ["disk full"])
          = .ok (some m)
        ∧ m.At.IsAtAll = false ∧ m.At.AtMobiles = [] :=
  ⟨by decide, by decide,
    mention_mixed_all_is_none sampleRuntime ⟨"tok", "", "123 ALL"⟩ (syncEvent ["disk full"])
      { Errors := [⟨⟨none⟩, "", "disk full"⟩] } rfl (by decide) (by decide) (by decide)⟩

/-- Claim C8: A directive whose trimmed form contains two consecutive spaces
resolves, for a sync event with errors, to nobody: IsAtAll is not set and no
mobile is listed. -/
theorem mention_double_space_is_none (rt : Runtime) (d : DingTalk) (message : Message)
    (s : SyncEventMetadata) (hm : message.Event.Metadata = some (.Sync s))
    (he : s.Errors ≠ [])
    (h1 : strings.Contains (strings.TrimSpace d.AtNum) "  " = true) :
    ∃ m, NewDingTalkMessage rt d message = .ok (some m)
      ∧ m.At.IsAtAll = false ∧ m.At.AtMobiles = [] := by
  have hlen : s.Errors.length > 0 := List.length_pos.mpr he
  have h2 : strings.TrimSpace d.AtNum ≠ "" := by
    intro h
    rw [h] at h1
    exact absurd h1 (by decide)
  have h3 : ¬ strings.ToUpper rt.Upper (strings.TrimSpace d.AtNum) = "ALL" := by
    intro h
    rw [no_double_space_of_equalFoldALL ((ToUpper_eq_ALL _ _).mp h)] at h1
    exact absurd h1 (by decide)
  simp [NewDingTalkMessage, hm, EventMetadata.Type, EventSync_ne_EventAutoRelease,
    EventMetadata.assertSync, hlen, DingTalkMessage.zero, h1, h2, h3]

theorem mention_double_space_is_none_witness :
    strings.Contains (strings.TrimSpace "a  b") "  " = true
      ∧ ∃ m, NewDingTalkMessage sampleRuntime ⟨"tok", "", "a  b"⟩ (syncEvent ["disk full"])
          = .ok (some m)
        ∧ m.At.IsAtAll = false ∧ m.At.AtMobiles = [] :=
  ⟨by decide,
    mention_double_space_is_none sampleRuntime ⟨"tok", "", "a  b"⟩ (syncEvent ["disk full"])
      { Errors := [⟨⟨none⟩, "", "disk full"⟩] } rfl (by decide) (by decide)⟩

/-- Claim C9: A directive that is empty or made of white space only resolves, for a
sync event with errors, to nobody: IsAtAll is not set and no mobile is
listed. -/
theorem mention_blank_is_none (rt : Runtime) (d : DingTalk) (message : Message)
    (s : SyncEventMetadata) (hm : message.Event.Metadata = some (.Sync s))
    (he : s.Errors ≠ [])
    (h1 : ∀ c ∈ d.AtNum.data, unicode.IsSpace c = true) :
    ∃ m, NewDingTalkMessage rt d message = .ok (some m)
      ∧ m.At.IsAtAll = false ∧ m.At.AtMobiles = [] := by
  have hlen : s.Errors.length > 0 := List.length_pos.mpr he
  have h2 : strings.TrimSpace d.AtNum = "" := TrimSpace_eq_empty h1
  simp [NewDingTalkMessage, hm, EventMetadata.Type, EventSync_ne_EventAutoRelease,
    EventMetadata.assertSync, hlen, DingTalkMessage.zero, h2]

theorem mention_blank_is_none_witness :
    (∀ c ∈ " \t ".data, unicode.IsSpace c = true)
      ∧ ∃ m, NewDingTalkMessage sampleRuntime ⟨"tok", "", " \t "⟩ (syncEvent ["disk full"])
          = .ok (some m)
        ∧ m.At.IsAtAll = false ∧ m.At.AtMobiles = [] :=
  ⟨by decide,
    mention_blank_is_none sampleRuntime ⟨"tok", "", " \t "⟩ (syncEvent ["disk full"])
      { Errors := [⟨⟨none⟩, "", "disk full"⟩] } rfl (by decide) (by decide)⟩

/-- Claim C10: In every message the formatter returns, for every event and every
directive, IsAtAll is not set together with a non-empty list of mobiles. -/
theorem mention_target_exclusive (rt : Runtime) (d : DingTalk) (message : Message)
    (m : DingTalkMessage) (h : NewDingTalkMessage rt d message = .ok (some m)) :
    ¬ (m.At.IsAtAll = true ∧ m.At.AtMobiles ≠ []) := by
  unfold NewDingTalkMessage at h
  match hmd : message.Event.Metadata with
  | none => simp [hmd] at h
  | some .Commit =>
    simp [hmd, EventMetadata.Type, EventCommit, EventAutoRelease, EventSync] at h
  | some .Release =>
    simp [hmd, EventMetadata.Type, EventRelease, EventAutoRelease, EventSync] at h
  | some .Unknown =>
    simp [hmd, EventMetadata.Type, EventAutoRelease, EventSync] at h
  | some (.AutoRelease a) =>
    simp only [hmd, EventMetadata.Type, if_true, EventMetadata.assertAutoRelease] at h
    cases hc : a.Spec.Changes[0]? with
    | none => simp [hc] at h
    | some c =>
      simp only [hc] at h
      split at h
      · simp at h
      · simp only [Except.ok.injEq, Option.some.injEq] at h
        subst h
        simp [DingTalkMessage.zero]
  | some (.Sync s) =>
    simp only [hmd, EventMetadata.Type, EventSync_ne_EventAutoRelease, if_false, if_true,
      EventMetadata.assertSync] at h
    split_ifs at h <;> simp only [Except.ok.injEq, Option.some.injEq, reduceCtorEq] at h <;>
      subst h <;> simp [DingTalkMessage.zero]

theorem mention_target_exclusive_witness :
    NewDingTalkMessage sampleRuntime ⟨"tok", "", "ALL"⟩ (syncEvent ["disk full"])
        = .ok (some
          { Msgtype := "markdown"
            Markdown :=
              { Title := "Sync errors"
                Text := "<font color=#FF0000 size=5 >同步错误，开发忽略！！！ </font>    \n\n **错误信息**：disk full \n\n  " }
            At := { AtMobiles := [], AtUserIds := [], IsAtAll := true } })
      ∧ ¬ ((true : Bool) = true ∧ ([] : List String) ≠ []) :=
  ⟨rfl, mention_target_exclusive sampleRuntime ⟨"tok", "", "ALL"⟩ (syncEvent ["disk full"])
    { Msgtype := "markdown"
      Markdown :=
        { Title := "Sync errors"
          Text := "<font color=#FF0000 size=5 >同步错误，开发忽略！！！ </font>    \n\n **错误信息**：disk full \n\n  " }
      At := { AtMobiles := [], AtUserIds := [], IsAtAll := true } } rfl⟩

/-! ## Automated releases -/

theorem mapM_String_zero (front back : List resource.ID) :
    (front ++ ⟨none⟩ :: back).mapM (fun v => v.String) = .error Panic.nilDereference := by
  induction front with
  | nil =>
    simp only [List.nil_append, List.mapM_cons, resource.ID.String]
    rfl
  | cons v t ih =>
    simp only [List.cons_append, List.mapM_cons, ih]
    cases hv : v.String with
    | error p =>
      cases hi : v.impl with
      | none =>
        simp only [resource.ID.String, hi] at hv
        cases hv
        rfl
      | some x => simp [resource.ID.String, hi] at hv
    | ok x => rfl

theorem NewDingTalkMessage_autoRelease (rt : Runtime) (d : DingTalk) (message : Message)
    (a : AutoReleaseEventMetadata) (c : Change) (r : List Change) (names : List String)
    (hm : message.Event.Metadata = some (.AutoRelease a)) (hc : a.Spec.Changes = c :: r)
    (hids : message.Event.ServiceIDs.mapM (fun v => v.String) = .ok names) :
    NewDingTalkMessage rt d message = .ok (some
      { Msgtype := "markdown"
        Markdown :=
          { Title := "EventAutoRelease"
            Text := "<font color=#008000 size=5 >上线通知 </font>  \n\n **开始时间**："
              ++ f1 rt message.Event.StartedAt
              ++ " \n\n **结束时间**：" ++ f1 rt message.Event.EndedAt
              ++ "  \n\n **上线应用**：\n\n "
              ++ rt.Sprintf0 (strings.Join names "\n\n")
              ++ " " ++ "\n\n **新镜像**：" ++ c.ImageID.String
              ++ " \n\n **旧镜像**: " ++ c.Container.Image.String }
        At := { AtMobiles := [], AtUserIds := [], IsAtAll := false } }) := by
  simp only [NewDingTalkMessage, hm, EventMetadata.Type, if_true,
    EventMetadata.assertAutoRelease, hc, List.getElem?_cons_zero, hids, DingTalkMessage.zero]

theorem NewDingTalkMessage_autoRelease_zero (rt : Runtime) (d : DingTalk) (message : Message)
    (a : AutoReleaseEventMetadata) (c : Change) (r : List Change)
    (front back : List resource.ID)
    (hm : message.Event.Metadata = some (.AutoRelease a)) (hc : a.Spec.Changes = c :: r)
    (hids : message.Event.ServiceIDs = front ++ ⟨none⟩ :: back) :
    NewDingTalkMessage rt d message = .error .nilDereference := by
  simp only [NewDingTalkMessage, hm, EventMetadata.Type, if_true,
    EventMetadata.assertAutoRelease, hc, List.getElem?_cons_zero, hids, mapM_String_zero]

theorem NewDingTalkMessage_autoRelease_inv (rt : Runtime) (d : DingTalk) (message : Message)
    (a : AutoReleaseEventMetadata) (m : DingTalkMessage)
    (hm : message.Event.Metadata = some (.AutoRelease a))
    (h : NewDingTalkMessage rt d message = .ok (some m)) :
    ∃ c r names, a.Spec.Changes = c :: r
      ∧ message.Event.ServiceIDs.mapM (fun v => v.String) = .ok names
      ∧ m =
        { Msgtype := "markdown"
          Markdown :=
            { Title := "EventAutoRelease"
              Text := "<font color=#008000 size=5 >上线通知 </font>  \n\n **开始时间**："
                ++ f1 rt message.Event.StartedAt
                ++ " \n\n **结束时间**：" ++ f1 rt message.Event.EndedAt
                ++ "  \n\n **上线应用**：\n\n "
                ++ rt.Sprintf0 (strings.Join names "\n\n")
                ++ " " ++ "\n\n **新镜像**：" ++ c.ImageID.String
                ++ " \n\n **旧镜像**: " ++ c.Container.Image.String }
          At := { AtMobiles := [], AtUserIds := [], IsAtAll := false } } := by
  cases hch : a.Spec.Changes with
  | nil =>
    simp [NewDingTalkMessage, hm, EventMetadata.Type, EventMetadata.assertAutoRelease, hch] at h
  | cons c r =>
    cases hids : message.Event.ServiceIDs.mapM (fun v => v.String) with
    | error p =>
      simp only [NewDingTalkMessage, hm, EventMetadata.Type, if_true,
        EventMetadata.assertAutoRelease, hch, List.getElem?_cons_zero, hids] at h
      cases h
    | ok names =>
      rw [NewDingTalkMessage_autoRelease rt d message a c r names hm hch hids] at h
      simp only [Except.ok.injEq, Option.some.injEq] at h
      exact ⟨c, r, names, rfl, rfl, h.symm⟩

/-- Claim C11, at the event that breaks it: for an automated release event
with image changes, one of whose workload ids is the zero value, the
formatter returns no message: the call of `String()` on that id panics,
whatever the configuration and the changes. -/
theorem autorelease_zero_workload_id_panics (rt : Runtime) (d : DingTalk)
    (front back : List resource.ID) (c : Change) (r : List Change) :
    NewDingTalkMessage rt d (autoReleaseEvent (front ++ ⟨none⟩ :: back) (c :: r))
      = .error .nilDereference :=
  NewDingTalkMessage_autoRelease_zero rt d _ ⟨⟨c :: r⟩⟩ c r front back rfl rfl rfl

/-- For an automated release event with at least one image change, none of
whose workload ids is the zero value, the formatter returns a message that
depends on the first change only: two such events that differ in nothing but
the changes after the first get the same result, and the body holds the new
image and the old image of the first change. -/
theorem autorelease_first_change_only (rt : Runtime) (d : DingTalk)
    (m1 m2 : Message) (a1 a2 : AutoReleaseEventMetadata) (c : Change) (r1 r2 : List Change)
    (names : List String)
    (h1 : m1.Event.Metadata = some (.AutoRelease a1)) (hc1 : a1.Spec.Changes = c :: r1)
    (h2 : m2.Event.Metadata = some (.AutoRelease a2)) (hc2 : a2.Spec.Changes = c :: r2)
    (hids : m1.Event.ServiceIDs = m2.Event.ServiceIDs)
    (hstart : m1.Event.StartedAt = m2.Event.StartedAt)
    (hend : m1.Event.EndedAt = m2.Event.EndedAt)
    (hnames : m1.Event.ServiceIDs.mapM (fun v => v.String) = .ok names) :
    NewDingTalkMessage rt d m1 = NewDingTalkMessage rt d m2
      ∧ ∃ m front mid, NewDingTalkMessage rt d m1 = .ok (some m)
        ∧ m.Markdown.Text = front ++ c.ImageID.String ++ mid ++ c.Container.Image.String := by
  rw [NewDingTalkMessage_autoRelease rt d m1 a1 c r1 names h1 hc1 hnames,
    NewDingTalkMessage_autoRelease rt d m2 a2 c r2 names h2 hc2 (hids ▸ hnames), hstart, hend]
  exact ⟨rfl, _, _, _, rfl, rfl⟩

/-- Claim C12, at the event that breaks it: for an automated release event
with one image change whose one workload id is the zero value no message is
returned, under any directive, `ALL` and a list of mobiles included: the call
of `String()` on that id panics. -/
theorem autorelease_zero_workload_id_returns_no_message (rt : Runtime)
    (access secret directive : String) (c : Change) :
    NewDingTalkMessage rt ⟨access, secret, directive⟩ (autoReleaseEvent [⟨none⟩] [c])
      = .error .nilDereference :=
  NewDingTalkMessage_autoRelease_zero rt ⟨access, secret, directive⟩
    (autoReleaseEvent [⟨none⟩] [c]) ⟨⟨[c]⟩⟩ c [] [] [] rfl rfl rfl

/-- Every message the formatter returns for an automated release mentions
nobody, whatever the directive: IsAtAll is not set and the lists of mobiles
and of user ids are empty; and a message is returned when there is an image
change and no workload id is the zero value. -/
theorem autorelease_message_mentions_nobody (rt : Runtime) (d : DingTalk) (message : Message)
    (a : AutoReleaseEventMetadata)
    (hm : message.Event.Metadata = some (.AutoRelease a)) :
    (∀ m, NewDingTalkMessage rt d message = .ok (some m) →
        m.At.IsAtAll = false ∧ m.At.AtMobiles = [] ∧ m.At.AtUserIds = [])
      ∧ (∀ names, a.Spec.Changes ≠ [] →
          message.Event.ServiceIDs.mapM (fun v => v.String) = .ok names →
          ∃ m, NewDingTalkMessage rt d message = .ok (some m)) := by
  constructor
  · intro m h
    obtain ⟨c, r, names, _, _, rfl⟩ := NewDingTalkMessage_autoRelease_inv rt d message a m hm h
    exact ⟨rfl, rfl, rfl⟩
  · intro names hc hids
    obtain ⟨c, r, hcr⟩ := List.exists_cons_of_ne_nil hc
    exact ⟨_, NewDingTalkMessage_autoRelease rt d message a c r names hm hcr hids⟩

/-! ## The signature -/

theorem sha256_blocks_length (n : Nat) (h p : List Nat) (hh : h.length = 8) :
    (sha256.blocks n h p).length = 8 := by
  induction n generalizing h p with
  | zero => exact hh
  | succ n ih => exact ih _ _ rfl

theorem sha256_Sum256_length (data : List Nat) : (sha256.Sum256 data).length = 32 := by
  have h8 := sha256_blocks_length ((sha256.padded data).length / 64) sha256.init
    (sha256.padded data) rfl
  show ((sha256.blocks ((sha256.padded data).length / 64) sha256.init
    (sha256.padded data)).flatMap (sha256.bigEndian 4)).length = 32
  generalize sha256.blocks ((sha256.padded data).length / 64) sha256.init
    (sha256.padded data) = l at h8
  match l, h8 with
  | [a, b, c, d, e, f, g, h], _ => rfl

theorem hmac_eq_hmacSHA256 (key text : List Nat) :
    ((hmac.New key).Write text).Sum [] = hmacSHA256 key text := by
  unfold hmac.New hmac.HMAC.Write hmac.HMAC.Sum hmacSHA256
  by_cases hk : key.length > 64
  · have h32 := sha256_Sum256_length key
    simp [hk, sha256.New, sha256.digest.Write, sha256.digest.Sum, sha256.digest.Reset,
      sha256.digest.BlockSize, hmac.copyInto, h32, List.take_of_length_le]
  · have hle : key.length ≤ 64 := by omega
    simp [hk, sha256.New, sha256.digest.Write, sha256.digest.Sum, sha256.digest.Reset,
      sha256.digest.BlockSize, hmac.copyInto, List.take_of_length_le hle]

theorem sign_secret_only (d : DingTalk) (t : Int) :
    d.sign t = (DingTalk.mk "" d.Secret "").sign t := by
  unfold DingTalk.sign
  rfl

set_option maxRecDepth 1000000 in
theorem sign_s3cr3t : (DingTalk.mk "" "s3cr3t" "").sign 1700000000000
    = "jRhQKmcWDB38YUNeCEXp9yo/I5OBM7UP81cpTrETHUw=" := by
  decide

/-- Claim C13: The signature of a timestamp is the standard base64 encoding
of the HMAC-SHA256, keyed by the secret, of the bytes of the timestamp in
decimal, a newline and the secret; so with the secret s3cr3t the timestamp
1700000000000 is signed as the text 1700000000000, newline, s3cr3t, and the
signature is the 44 characters that standard implementations give. -/
theorem sign_is_base64_hmac_sha256 (d : DingTalk) (t : Int) :
    d.sign t = base64.EncodeToString
        (hmacSHA256 (bytesOf d.Secret) (bytesOf (toString t ++ "\n" ++ d.Secret)))
      ∧ (DingTalk.mk d.Access "s3cr3t" d.AtNum).sign 1700000000000
        = base64.EncodeToString
          (hmacSHA256 (bytesOf "s3cr3t") (bytesOf "1700000000000\ns3cr3t"))
      ∧ (DingTalk.mk d.Access "s3cr3t" d.AtNum).sign 1700000000000
        = "jRhQKmcWDB38YUNeCEXp9yo/I5OBM7UP81cpTrETHUw=" := by
  refine ⟨?_, ?_, ?_⟩
  · unfold DingTalk.sign
    simp only [hmac_eq_hmacSHA256, strconv.FormatInt]
  · unfold DingTalk.sign
    simp only [hmac_eq_hmacSHA256, strconv.FormatInt]
    rfl
  · rw [sign_secret_only]
    exact sign_s3cr3t

/-! ## The request -/

theorem queryParams_no_secret (d : DingTalk) (now : Int) (h : d.Secret = "") :
    d.queryParams now = [("access_token", d.Access)] := by
  simp [DingTalk.queryParams, url.Values.Set, h]

theorem queryParams_secret (d : DingTalk) (now : Int) (h : d.Secret ≠ "") :
    d.queryParams now =
      [("access_token", d.Access),
       ("timestamp", strconv.FormatInt (timestamp now)),
       ("sign", d.sign (timestamp now))] := by
  simp [DingTalk.queryParams, url.Values.Set, h]

theorem Send_request (rt : Runtime) (w : World) (d : DingTalk) (message : Message)
    (r : Sent) (req : http.Request)
    (h : d.Send rt w message = .ok r) (hr : r.request = some req) :
    ∃ m, NewDingTalkMessage rt d message = .ok (some m)
      ∧ req.Method = "POST"
      ∧ req.URL = "https://oapi.dingtalk.com/robot/send"
      ∧ req.RawQuery = (d.queryParams w.now).Encode
      ∧ json.Marshal m = .ok req.Body := by
  unfold DingTalk.Send at h
  cases hn : NewDingTalkMessage rt d message with
  | error p => rw [hn] at h; cases h
  | ok o =>
    cases o with
    | none =>
      rw [hn] at h
      simp only [Except.ok.injEq] at h
      subst h
      cases hr
    | some m =>
      rw [hn] at h
      simp only [json.Marshal, http.NewRequest, http.MethodPost] at h
      refine ⟨m, rfl, ?_⟩
      split at h <;> (try split at h) <;>
        · simp only [Except.ok.injEq] at h
          subst h
          simp only [Option.some.injEq] at hr
          subst hr
          exact ⟨rfl, rfl, rfl, rfl⟩

theorem Send_ok_of_formatter (rt : Runtime) (w : World) (d : DingTalk) (message : Message)
    (o : Option DingTalkMessage) (h : NewDingTalkMessage rt d message = .ok o) :
    ∃ r, d.Send rt w message = .ok r ∧ r.err = none := by
  unfold DingTalk.Send
  rw [h]
  cases o with
  | none => exact ⟨_, rfl, rfl⟩
  | some m =>
    simp only [json.Marshal, http.NewRequest]
    split
    · exact ⟨_, rfl, rfl⟩
    · split <;> exact ⟨_, rfl, rfl⟩

theorem Send_never_returns_error (rt : Runtime) (w : World) (d : DingTalk) (message : Message)
    (r : Sent) (h : d.Send rt w message = .ok r) : r.err = none := by
  cases hn : NewDingTalkMessage rt d message with
  | error p =>
    unfold DingTalk.Send at h
    rw [hn] at h
    cases h
  | ok o =>
    obtain ⟨r', h', he⟩ := Send_ok_of_formatter rt w d message o hn
    rw [h] at h'
    cases h'
    exact he

/-- Claim C14: the query parameters `Send` builds are the access token alone
when the secret is empty, and with a secret the access token, the timestamp
`t` in decimal and the signature of that same `t`; they are the query of
every request `Send` issues. -/
theorem Send_query_parameters (rt : Runtime) (w : World) (d : DingTalk) (message : Message) :
    (d.Secret = "" → d.queryParams w.now = [("access_token", d.Access)])
    ∧ (d.Secret ≠ "" → d.queryParams w.now =
        [("access_token", d.Access),
         ("timestamp", strconv.FormatInt (timestamp w.now)),
         ("sign", d.sign (timestamp w.now))])
    ∧ (∀ r req, d.Send rt w message = .ok r → r.request = some req →
        req.RawQuery = (d.queryParams w.now).Encode) := by
  refine ⟨queryParams_no_secret d w.now, queryParams_secret d w.now, ?_⟩
  intro r req h hr
  obtain ⟨_, _, _, _, hq, _⟩ := Send_request rt w d message r req h hr
  exact hq

/-- The parameters of claim C14 at two configurations that differ in the
secret only, and the query of a request that is sent. -/
theorem Send_query_parameters_witness :
    (DingTalk.mk "tok" "" "").queryParams 1700000000123456789 = [("access_token", "tok")]
    ∧ (DingTalk.mk "tok" "s3cr3t" "").queryParams 1700000000123456789 =
        [("access_token", "tok"), ("timestamp", "1700000000000"),
         ("sign", (DingTalk.mk "tok" "s3cr3t" "").sign 1700000000000)]
    ∧ (∀ r req,
        (DingTalk.mk "tok" "" "").Send sampleRuntime (sampleWorld 1700000000123456789)
          (syncEvent ["disk full"]) = .ok r →
        r.request = some req → req.RawQuery = "access_token=tok") :=
  ⟨(Send_query_parameters sampleRuntime (sampleWorld 1700000000123456789)
      (DingTalk.mk "tok" "" "") (syncEvent ["disk full"])).1 rfl,
   (Send_query_parameters sampleRuntime (sampleWorld 1700000000123456789)
      (DingTalk.mk "tok" "s3cr3t" "") (syncEvent ["disk full"])).2.1 (by decide),
   fun r req h hr =>
     ((Send_query_parameters sampleRuntime (sampleWorld 1700000000123456789)
      (DingTalk.mk "tok" "" "") (syncEvent ["disk full"])).2.2 r req h hr).trans (by decide)⟩

theorem timestamp_eq (now : Int)
    (h : -9223372036854775 ≤ Unix now ∧ Unix now ≤ 9223372036854775) :
    timestamp now = 1000 * Unix now := by
  unfold timestamp wrapInt64
  omega

/-- Claim C15, as the code has it: with a secret, for a clock reading whose
seconds times 1000 fit an `int64`, the timestamp that is sent and signed is
the whole seconds of the reading times 1000; it is at most the reading in
whole milliseconds and less than 1000 below it. -/
theorem timestamp_is_whole_seconds (d : DingTalk) (now : Int) (hs : d.Secret ≠ "")
    (h : -9223372036854775 ≤ now / 1000000000 ∧ now / 1000000000 ≤ 9223372036854775) :
    d.queryParams now =
        [("access_token", d.Access),
         ("timestamp", strconv.FormatInt (1000 * (now / 1000000000))),
         ("sign", d.sign (1000 * (now / 1000000000)))]
    ∧ 1000 * (now / 1000000000) ≤ now / 1000000
    ∧ now / 1000000 < 1000 * (now / 1000000000) + 1000 := by
  refine ⟨?_, by omega, by omega⟩
  rw [queryParams_secret d now hs, timestamp_eq now h]
  rfl

/-- The timestamp of claim C15 at one and a half seconds past 2023-11-14
22:13:20 UTC. -/
theorem timestamp_is_whole_seconds_witness :
    (DingTalk.mk "tok" "s3cr3t" "").queryParams 1700000000500000000 =
        [("access_token", "tok"),
         ("timestamp", strconv.FormatInt (1000 * (1700000000500000000 / 1000000000))),
         ("sign", (DingTalk.mk "tok" "s3cr3t" "").sign
            (1000 * (1700000000500000000 / 1000000000)))]
    ∧ (1000 : Int) * (1700000000500000000 / 1000000000) ≤ 1700000000500000000 / 1000000
    ∧ (1700000000500000000 : Int) / 1000000
        < 1000 * (1700000000500000000 / 1000000000) + 1000 :=
  timestamp_is_whole_seconds (DingTalk.mk "tok" "s3cr3t" "") 1700000000500000000
    (by decide) (by decide)

/-- Claim C15, refuted as written: half a second past 2023-11-14 22:13:20 UTC
the clock reads 1700000000500 whole milliseconds, and the timestamp that is
sent is 1700000000000. -/
theorem timestamp_is_not_the_instant_in_milliseconds :
    ((DingTalk.mk "tok" "s3cr3t" "").queryParams 1700000000500000000).Get "timestamp"
      = some "1700000000000"
    ∧ (1700000000500000000 : Int) / 1000000 = 1700000000500
    ∧ timestamp 1700000000500000000 ≠ 1700000000500000000 / 1000000 := by
  decide

/-- Claim C16, at the event that breaks it: for an automated release with no
change `Send` does not return; it stops with the index-out-of-range panic of
the formatter, whatever the clock and the network do. -/
theorem Send_panics_on_autorelease_without_changes (rt : Runtime) (w : World) (d : DingTalk) :
    d.Send rt w (autoReleaseEvent [] []) = .error Panic.indexOutOfRange := by
  rfl

/-- Claim C17, at the key that breaks it: in the body `Send` posts for a
message, the object under `at` has the keys `atMobiles`, `atUserIds ` with a
space at its end, and `isAtAll`, and no key `atUserIds`; a list of strings
that is nil is written as `null`, not as an array. For a sync event with one
error and the directive `13800000000` the object is the mobile in an array,
`null` under `atUserIds ` and `false`. -/
theorem posted_at_object_keys (m : DingTalkMessage) :
    (∃ body at_, json.Marshal m = .ok body
      ∧ body.keys = ["msgtype", "markdown", "at"]
      ∧ body.member "at" = some at_
      ∧ at_.keys = ["atMobiles", "atUserIds ", "isAtAll"]
      ∧ at_.member "atUserIds" = none
      ∧ at_.member "atUserIds " = some (json.strings m.At.AtUserIds)
      ∧ at_.member "atMobiles" = some (json.strings m.At.AtMobiles))
    ∧ json.strings [] = .null
    ∧ (match (DingTalk.mk "tok" "" "13800000000").Send sampleRuntime (sampleWorld 0)
          (syncEvent ["disk full"]) with
        | .ok r => r.request.bind (fun q => q.Body.member "at")
        | .error _ => none)
      = some (.object
          [("atMobiles", .array [.string "13800000000"]),
           ("atUserIds ", .null),
           ("isAtAll", .bool false)]) :=
  ⟨⟨_, _, rfl, rfl, rfl, rfl, rfl, rfl, rfl⟩, rfl, rfl⟩

/-! ## Times in a zone -/

theorem isLeap_iff (year : Int) :
    time.isLeap year = true ↔ year % 4 = 0 ∧ (year % 100 ≠ 0 ∨ year % 400 = 0) := by
  simp [time.isLeap]

theorem yearDay_core (days a d1 b n100 d2 n4 d3 c n1 d4 y : Int)
    (ha : a = days / 146097) (hd1 : d1 = days - 146097 * a)
    (hb : b = d1 / 36524) (hn100 : n100 = b - b / 4) (hd2 : d2 = d1 - 36524 * n100)
    (hn4 : n4 = d2 / 1461) (hd3 : d3 = d2 - 1461 * n4)
    (hc : c = d3 / 365) (hn1 : n1 = c - c / 4) (hd4 : d4 = d3 - 365 * n1)
    (hy : y = 400 * a + 100 * n100 + 4 * n4 + n1 + 1) :
    0 ≤ d4 ∧ d4 ≤ 365
    ∧ (d4 = 365 → y % 4 = 0 ∧ (y % 100 ≠ 0 ∨ y % 400 = 0))
    ∧ (y % 4 = 0 ∧ (y % 100 ≠ 0 ∨ y % 400 = 0) ∨ d4 ≤ 364)
    ∧ days = 365 * (y - 1) + (y - 1) / 4 - (y - 1) / 100 + (y - 1) / 400 + d4 := by
  have hb1 : b = 0 ∨ b = 1 ∨ b = 2 ∨ b = 3 ∨ b = 4 := by omega
  have hn : 0 ≤ n100 ∧ n100 ≤ 3 := by omega
  have hd2b : 0 ≤ d2 ∧ d2 ≤ 36524 ∧ (n100 ≤ 2 → d2 ≤ 36523) := by omega
  have hn4b : 0 ≤ n4 ∧ n4 ≤ 24 := by omega
  have hd3b : 0 ≤ d3 ∧ d3 ≤ 1460 ∧ (n4 = 24 → n100 ≤ 2 → d3 ≤ 1459) := by omega
  have hc1 : c = 0 ∨ c = 1 ∨ c = 2 ∨ c = 3 ∨ c = 4 := by omega
  have hn1b : 0 ≤ n1 ∧ n1 ≤ 3 := by omega
  have hd4b : 0 ≤ d4 ∧ d4 ≤ 365 ∧ (d4 = 365 → n1 = 3 ∧ (n4 = 24 → n100 = 3)) := by omega
  have hy4 : (y - 1) / 4 = 100 * a + 25 * n100 + n4 := by omega
  have hy100 : (y - 1) / 100 = 4 * a + n100 := by omega
  have hy400 : (y - 1) / 400 = a := by omega
  refine ⟨hd4b.1, hd4b.2.1, ?_, ?_, ?_⟩
  · intro h
    obtain ⟨h1, h2⟩ := hd4b.2.2 h
    omega
  · omega
  · omega

theorem yearDay_spec (days : Int) :
    0 ≤ (time.yearDay days).2 ∧ (time.yearDay days).2 ≤ 365
    ∧ ((time.yearDay days).2 = 365 → time.isLeap (time.yearDay days).1 = true)
    ∧ (time.isLeap (time.yearDay days).1 = true ∨ (time.yearDay days).2 ≤ 364)
    ∧ days = 365 * ((time.yearDay days).1 - 1) + ((time.yearDay days).1 - 1) / 4
        - ((time.yearDay days).1 - 1) / 100 + ((time.yearDay days).1 - 1) / 400
        + (time.yearDay days).2 := by
  rw [isLeap_iff]
  simp only [time.yearDay]
  exact yearDay_core days _ _ _ _ _ _ _ _ _ _ _ rfl rfl rfl rfl rfl rfl rfl rfl rfl rfl rfl

theorem toNat_lit (n : Nat) [n.AtLeastTwo] :
    Int.toNat (no_index (OfNat.ofNat n)) = OfNat.ofNat n := rfl

theorem yearDate_common (y d : Int) (hL : time.isLeap y = false) (h0 : 0 ≤ d) (h1 : d ≤ 364) :
    (time.yearDate y d).year = y
    ∧ 1 ≤ (time.yearDate y d).month ∧ (time.yearDate y d).month ≤ 12
    ∧ 1 ≤ (time.yearDate y d).day
    ∧ (time.yearDate y d).day ≤ daysIn y (time.yearDate y d).month
    ∧ daysBeforeMonth y (time.yearDate y d).month + ((time.yearDate y d).day - 1) = d := by
  have hk : d / 31 = 0 ∨ d / 31 = 1 ∨ d / 31 = 2 ∨ d / 31 = 3 ∨ d / 31 = 4 ∨ d / 31 = 5
      ∨ d / 31 = 6 ∨ d / 31 = 7 ∨ d / 31 = 8 ∨ d / 31 = 9 ∨ d / 31 = 10 ∨ d / 31 = 11 := by
    omega
  simp only [time.yearDate, hL, Bool.false_and, Bool.false_eq_true, if_false]
  rcases hk with hk | hk | hk | hk | hk | hk | hk | hk | hk | hk | hk | hk <;>
    · rw [hk]
      simp only [time.daysBefore]
      norm_num [toNat_lit]
      split <;>
        · simp [daysBeforeMonth, daysIn, hL, toNat_lit, List.range_succ]
          omega

theorem yearDate_leap (y d : Int) (hL : time.isLeap y = true) (h0 : 0 ≤ d) (h1 : d ≤ 365) :
    (time.yearDate y d).year = y
    ∧ 1 ≤ (time.yearDate y d).month ∧ (time.yearDate y d).month ≤ 12
    ∧ 1 ≤ (time.yearDate y d).day
    ∧ (time.yearDate y d).day ≤ daysIn y (time.yearDate y d).month
    ∧ daysBeforeMonth y (time.yearDate y d).month + ((time.yearDate y d).day - 1) = d := by
  by_cases h59 : d = 59
  · subst h59
    simp [time.yearDate, hL, daysBeforeMonth, daysIn, List.range_succ]
  · by_cases hgt : d > 59
    · have hk : (d - 1) / 31 = 1 ∨ (d - 1) / 31 = 2 ∨ (d - 1) / 31 = 3 ∨ (d - 1) / 31 = 4
          ∨ (d - 1) / 31 = 5 ∨ (d - 1) / 31 = 6 ∨ (d - 1) / 31 = 7 ∨ (d - 1) / 31 = 8
          ∨ (d - 1) / 31 = 9 ∨ (d - 1) / 31 = 10 ∨ (d - 1) / 31 = 11 := by
        omega
      have hgt2 : (31 : Int) + 29 - 1 < d := by omega
      have h59b : ¬ d = 31 + 29 - 1 := by omega
      simp only [time.yearDate, hL, Bool.true_and, beq_iff_eq, h59b, if_false, gt_iff_lt,
        decide_eq_true_eq, hgt2, if_true]
      rcases hk with hk | hk | hk | hk | hk | hk | hk | hk | hk | hk | hk <;>
        · rw [hk]
          simp only [time.daysBefore]
          norm_num [toNat_lit]
          split <;>
            · simp [daysBeforeMonth, daysIn, hL, toNat_lit, List.range_succ]
              omega
    · have hk : d / 31 = 0 ∨ d / 31 = 1 := by omega
      have hgt2 : ¬ (31 : Int) + 29 - 1 < d := by omega
      have h59b : ¬ d = 31 + 29 - 1 := by omega
      simp only [time.yearDate, hL, Bool.true_and, beq_iff_eq, h59b, if_false, gt_iff_lt,
        decide_eq_true_eq, hgt2]
      rcases hk with hk | hk <;>
        · rw [hk]
          simp only [time.daysBefore]
          norm_num [toNat_lit]
          split <;>
            · simp [daysBeforeMonth, daysIn, hL, toNat_lit, List.range_succ]
              omega

theorem absDate_spec (days : Int) :
    1 ≤ (time.absDate days).month ∧ (time.absDate days).month ≤ 12
    ∧ 1 ≤ (time.absDate days).day
    ∧ (time.absDate days).day ≤ daysIn (time.absDate days).year (time.absDate days).month
    ∧ dayOf (time.absDate days) = days := by
  obtain ⟨h0, h1, _, h3, h4⟩ := yearDay_spec days
  have key : (time.absDate days).year = (time.yearDay days).1
      ∧ 1 ≤ (time.absDate days).month ∧ (time.absDate days).month ≤ 12
      ∧ 1 ≤ (time.absDate days).day
      ∧ (time.absDate days).day ≤ daysIn (time.yearDay days).1 (time.absDate days).month
      ∧ daysBeforeMonth (time.yearDay days).1 (time.absDate days).month
          + ((time.absDate days).day - 1) = (time.yearDay days).2 := by
    unfold time.absDate
    cases hL : time.isLeap (time.yearDay days).1 with
    | true => exact yearDate_leap _ _ hL h0 h1
    | false =>
      rw [hL] at h3
      exact yearDate_common _ _ hL h0 (by simpa using h3)
  obtain ⟨k1, k2, k3, k4, k5, k6⟩ := key
  refine ⟨k2, k3, k4, by rw [k1]; exact k5, ?_⟩
  unfold dayOf
  rw [k1]
  omega

theorem absDate_year (days : Int) : (time.absDate days).year = (time.yearDay days).1 := by
  unfold time.absDate time.yearDate
  dsimp only
  split_ifs <;> rfl

theorem absDate_year_bounds (days : Int) (h0 : -366 ≤ days) (h1 : days < 3652059) :
    0 ≤ (time.absDate days).year ∧ (time.absDate days).year ≤ 9999 := by
  obtain ⟨k0, k1, k2, _, k4⟩ := yearDay_spec days
  rw [absDate_year]
  rw [isLeap_iff] at k2
  generalize (time.yearDay days).1 = y at k2 k4 ⊢
  generalize (time.yearDay days).2 = d at k0 k1 k2 k4
  have k3 : d ≤ 364 ∨ y % 4 = 0 := by
    by_cases h : d = 365
    · exact Or.inr (k2 h).1
    · exact Or.inl (by omega)
  have e1 : (y - 1) / 100 = (y - 1) / 4 / 25 := by omega
  have e2 : (y - 1) / 400 = (y - 1) / 100 / 4 := by omega
  constructor
  · by_contra hy
    have c1 : (y - 1) / 4 ≤ 25 * ((y - 1) / 100) + 24 := by omega
    have c2 : (y - 1) / 100 ≤ -1 := by omega
    have c3 : (y - 1) / 400 ≤ -1 := by omega
    omega
  · by_contra hy
    have c0 : 2499 ≤ (y - 1) / 4 := by omega
    have c1 : 25 * ((y - 1) / 100) ≤ (y - 1) / 4 := by omega
    have c2 : 99 ≤ (y - 1) / 100 := by omega
    have c3 : 24 ≤ (y - 1) / 400 := by omega
    have c4 : (y - 1) / 100 ≤ 4 * ((y - 1) / 400) + 3 := by omega
    have c5 : 4 * ((y - 1) / 4) + 3 ≥ y - 1 := by omega
    omega

theorem decimal_one (n : Nat) (h : n < 10) : time.decimal 20 n = [time.digit n] := by
  simp [time.decimal, h]

theorem appendInt_two (n : Nat) (h : n < 100) :
    time.appendInt (n : Int) 2 = [time.digit (n / 10 % 10), time.digit (n % 10)] := by
  have hneg : ¬ ((n : Int) < 0) := by omega
  by_cases h1 : n < 10
  · have e1 : n / 10 % 10 = 0 := by omega
    have e2 : n % 10 = n := by omega
    simp [time.appendInt, time.decimal, h1, e1, e2, List.replicate]
    rfl
  · have h2 : n / 10 < 10 := by omega
    have e1 : n / 10 % 10 = n / 10 := by omega
    simp [time.appendInt, time.decimal, h1, h2, e1]

theorem appendInt_four (n : Nat) (h : n < 10000) :
    time.appendInt (n : Int) 4 =
      [time.digit (n / 1000 % 10), time.digit (n / 100 % 10), time.digit (n / 10 % 10),
       time.digit (n % 10)] := by
  have z : time.digit 0 = '0' := rfl
  by_cases h1 : n < 10
  · have e1 : n / 1000 % 10 = 0 := by omega
    have e2 : n / 100 % 10 = 0 := by omega
    have e3 : n / 10 % 10 = 0 := by omega
    have e4 : n % 10 = n := by omega
    simp [time.appendInt, time.decimal, h1, e1, e2, e3, e4, List.replicate, z]
  · by_cases h2 : n / 10 < 10
    · have e1 : n / 1000 % 10 = 0 := by omega
      have e2 : n / 100 % 10 = 0 := by omega
      have e3 : n / 10 % 10 = n / 10 := by omega
      simp [time.appendInt, time.decimal, h1, h2, e1, e2, e3, List.replicate, z]
    · by_cases h3 : n / 10 / 10 < 10
      · have e1 : n / 1000 % 10 = 0 := by omega
        have e2 : n / 100 % 10 = n / 10 / 10 := by omega
        simp [time.appendInt, time.decimal, h1, h2, h3, e1, e2, List.replicate, z]
      · have h4 : n / 10 / 10 / 10 < 10 := by omega
        have e1 : n / 1000 % 10 = n / 10 / 10 / 10 := by omega
        have e2 : n / 100 % 10 = n / 10 / 10 % 10 := by omega
        simp [time.appendInt, time.decimal, h1, h2, h3, h4, e1, e2]

theorem lookup_FixedZone (name : String) (offset sec : Int) :
    (time.FixedZone name offset).lookup sec = offset := by
  simp [time.Location.lookup, time.FixedZone, time.Location.lookupFirstZone,
    time.Location.firstZoneUsed]

theorem Shanghai_tx_le : ∀ t ∈ time.Shanghai.tx, t.when ≤ 684867600 := by
  decide

theorem Shanghai_lookup_modern (sec : Int) (h : 684867600 ≤ sec) :
    time.Shanghai.lookup sec = 28800 := by
  have hf : time.Shanghai.tx.filter (fun t => decide (t.when ≤ sec)) = time.Shanghai.tx := by
    rw [List.filter_eq_self]
    intro a ha
    have := Shanghai_tx_le a ha
    simp only [decide_eq_true_eq]
    omega
  unfold time.Location.lookup
  rw [hf]
  rfl

theorem Format_congr (t : Time) (l1 l2 : time.Location)
    (h : l1.lookup t.unix = l2.lookup t.unix) : (t.In l1).Format = (t.In l2).Format := by
  simp only [LocalTime.Format, LocalTime.Date, LocalTime.Hour, LocalTime.Minute,
    LocalTime.Second, LocalTime.abs, Time.In, h]

theorem Format_text (t : LocalTime) (h0 : -62167219200 ≤ t.unix + t.loc.lookup t.unix)
    (h1 : t.unix + t.loc.lookup t.unix < 253402300800) :
    t.Format = dateTimeText t.Date.year.toNat t.Date.month.toNat t.Date.day.toNat
        t.Hour.toNat t.Minute.toNat t.Second.toNat
    ∧ 0 ≤ t.Date.year ∧ t.Date.year ≤ 9999
    ∧ 1 ≤ t.Date.month ∧ t.Date.month ≤ 12
    ∧ 1 ≤ t.Date.day ∧ t.Date.day ≤ daysIn t.Date.year t.Date.month
    ∧ 0 ≤ t.Hour ∧ t.Hour ≤ 23 ∧ 0 ≤ t.Minute ∧ t.Minute ≤ 59
    ∧ 0 ≤ t.Second ∧ t.Second ≤ 59
    ∧ 86400 * dayOf t.Date + 3600 * t.Hour + 60 * t.Minute + t.Second
        = t.unix + t.loc.lookup t.unix + 62135596800 := by
  have hd0 : -366 ≤ t.abs / 86400 := by unfold LocalTime.abs; omega
  have hd1 : t.abs / 86400 < 3652059 := by unfold LocalTime.abs; omega
  obtain ⟨y0, y1⟩ := absDate_year_bounds _ hd0 hd1
  obtain ⟨m0, m1, d0, d1, hday⟩ := absDate_spec (t.abs / 86400)
  have d2 : (time.absDate (t.abs / 86400)).day ≤ 31 := by
    refine le_trans d1 ?_
    unfold daysIn
    split_ifs <;> omega
  have hh : 0 ≤ t.Hour ∧ t.Hour ≤ 23 := by unfold LocalTime.Hour; omega
  have hm : 0 ≤ t.Minute ∧ t.Minute ≤ 59 := by unfold LocalTime.Minute; omega
  have hs : 0 ≤ t.Second ∧ t.Second ≤ 59 := by unfold LocalTime.Second; omega
  have hsum : 86400 * dayOf t.Date + 3600 * t.Hour + 60 * t.Minute + t.Second
      = t.unix + t.loc.lookup t.unix + 62135596800 := by
    unfold LocalTime.Date
    rw [hday]
    unfold LocalTime.Hour LocalTime.Minute LocalTime.Second LocalTime.abs
    omega
  refine ⟨?_, y0, y1, m0, m1, d0, d1, hh.1, hh.2, hm.1, hm.2, hs.1, hs.2, hsum⟩
  have cy := Int.toNat_of_nonneg y0
  have cm := Int.toNat_of_nonneg (le_trans (by decide) m0 : (0 : Int) ≤ _)
  have cd := Int.toNat_of_nonneg (le_trans (by decide) d0 : (0 : Int) ≤ _)
  have ch := Int.toNat_of_nonneg hh.1
  have cmi := Int.toNat_of_nonneg hm.1
  have cs := Int.toNat_of_nonneg hs.1
  unfold LocalTime.Format dateTimeText
  simp only [LocalTime.Date]
  rw [← cy, ← cm, ← cd, ← ch, ← cmi, ← cs]
  rw [appendInt_four _ (by omega), appendInt_two _ (by omega), appendInt_two _ (by omega),
    appendInt_two _ (by omega), appendInt_two _ (by omega), appendInt_two _ (by omega)]
  simp only [Int.toNat_ofNat, List.cons_append, List.nil_append, cy, cm, cd, ch, cmi, cs]

/-- Claim C18, as the code has it: in every message for an automated release
the start and the end of the event are printed by the same conversion, the
start before the end. With the zone Asia/Shanghai of the time zone database,
an instant at which that zone is eight hours east of UTC and which falls
there in the years 0 to 9999 is printed as the text `YYYY-MM-DD HH:MM:SS`,
every field with zeros in front, of the date and the time of day eight hours
after the instant in UTC; every instant from 1991-09-14T17:00:00Z on is such
an instant, and 1970-01-01T00:00:00Z is printed as `1970-01-01 08:00:00`. -/
theorem autorelease_times_in_Shanghai (rt : Runtime) (d : DingTalk) (message : Message)
    (a : AutoReleaseEventMetadata)
    (hm : message.Event.Metadata = some (.AutoRelease a))
    (hrt : ∀ t, rt.FormatIn "Asia/Shanghai" "2006-01-02 15:04:05" t
      = (t.In time.Shanghai).Format) :
    (∀ m, NewDingTalkMessage rt d message = .ok (some m) →
      ∃ rest, m.Markdown.Text =
        "<font color=#008000 size=5 >上线通知 </font>  \n\n **开始时间**："
          ++ f1 rt message.Event.StartedAt ++ " \n\n **结束时间**："
          ++ f1 rt message.Event.EndedAt ++ rest)
    ∧ (∀ t : Time, time.Shanghai.lookup t.unix = 28800 →
        -62167219200 ≤ t.unix + 28800 → t.unix + 28800 < 253402300800 →
        f1 rt t = (t.In (time.FixedZone "UTC+8" 28800)).Format
        ∧ ∃ date : time.Date, ∃ hour minute second : Nat,
          f1 rt t = dateTimeText date.year.toNat date.month.toNat date.day.toNat
            hour minute second
          ∧ 0 ≤ date.year ∧ date.year ≤ 9999 ∧ 1 ≤ date.month ∧ date.month ≤ 12
          ∧ 1 ≤ date.day ∧ date.day ≤ daysIn date.year date.month
          ∧ hour ≤ 23 ∧ minute ≤ 59 ∧ second ≤ 59
          ∧ 86400 * dayOf date + 3600 * hour + 60 * minute + second
            = t.unix + 28800 + 62135596800)
    ∧ (∀ t : Time, 684867600 ≤ t.unix → time.Shanghai.lookup t.unix = 28800)
    ∧ f1 rt ⟨0⟩ = "1970-01-01 08:00:00" := by
  refine ⟨?_, ?_, fun t h => Shanghai_lookup_modern t.unix h, ?_⟩
  · intro m h
    obtain ⟨c, r, names, _, _, rfl⟩ := NewDingTalkMessage_autoRelease_inv rt d message a m hm h
    refine ⟨"  \n\n **上线应用**：\n\n "
      ++ rt.Sprintf0 (strings.Join names "\n\n")
      ++ " " ++ "\n\n **新镜像**：" ++ c.ImageID.String
      ++ " \n\n **旧镜像**: " ++ c.Container.Image.String, ?_⟩
    simp only [String.append_assoc]
  · intro t hl h0 h1
    have e1 : f1 rt t = (t.In time.Shanghai).Format := hrt t
    have hl2 : (t.In time.Shanghai).loc.lookup (t.In time.Shanghai).unix = 28800 := hl
    obtain ⟨k, y0, y1, m0, m1, d0, d1, hh0, hh1, hm0, hm1, hs0, hs1, hsum⟩ :=
      Format_text (t.In time.Shanghai) (by rw [hl2]; exact h0) (by rw [hl2]; exact h1)
    refine ⟨?_, (t.In time.Shanghai).Date, (t.In time.Shanghai).Hour.toNat,
      (t.In time.Shanghai).Minute.toNat, (t.In time.Shanghai).Second.toNat, ?_,
      y0, y1, m0, m1, d0, d1, ?_, ?_, ?_, ?_⟩
    · rw [e1]
      exact Format_congr t _ _ (by rw [hl, lookup_FixedZone])
    · rw [e1]
      exact k
    · omega
    · omega
    · omega
    · rw [hl2] at hsum
      rw [Int.toNat_of_nonneg hh0, Int.toNat_of_nonneg hm0, Int.toNat_of_nonneg hs0]
      exact hsum
  · rw [show f1 rt ⟨0⟩ = (Time.In ⟨0⟩ time.Shanghai).Format from hrt ⟨0⟩]
    decide

theorem timedAutoRelease_message :
    NewDingTalkMessage shanghaiRuntime ⟨"tok", "", ""⟩ (timedAutoRelease 1700000000 1700000300)
      = .ok (some
        { Msgtype := "markdown"
          Markdown :=
            { Title := "EventAutoRelease"
              Text := "<font color=#008000 size=5 >上线通知 </font>  \n\n **开始时间**："
                ++ "2023-11-15 06:13:20" ++ " \n\n **结束时间**：" ++ "2023-11-15 06:18:20"
                ++ "  \n\n **上线应用**：\n\n ns:deployment/a \n\n **新镜像**：img:2"
                ++ " \n\n **旧镜像**: img:1" }
          At := { AtMobiles := [], AtUserIds := [], IsAtAll := false } }) := by
  rw [NewDingTalkMessage_autoRelease shanghaiRuntime ⟨"tok", "", ""⟩
    (timedAutoRelease 1700000000 1700000300)
    ⟨⟨[⟨⟨some "ns:deployment/a"⟩, ⟨"c", ⟨"img:1"⟩⟩, ⟨"img:2"⟩⟩]⟩⟩
    ⟨⟨some "ns:deployment/a"⟩, ⟨"c", ⟨"img:1"⟩⟩, ⟨"img:2"⟩⟩ [] ["ns:deployment/a"] rfl rfl rfl]
  have e1 : f1 shanghaiRuntime (timedAutoRelease 1700000000 1700000300).Event.StartedAt
      = "2023-11-15 06:13:20" := by decide
  have e2 : f1 shanghaiRuntime (timedAutoRelease 1700000000 1700000300).Event.EndedAt
      = "2023-11-15 06:18:20" := by decide
  rw [e1, e2]
  rfl

/-- The times of claim C18 for a release from 2023-11-14T22:13:20Z to five
minutes later: a message is returned, and its body has the two times. -/
theorem autorelease_times_in_Shanghai_witness :
    (∃ m rest, NewDingTalkMessage shanghaiRuntime ⟨"tok", "", ""⟩
        (timedAutoRelease 1700000000 1700000300) = .ok (some m)
      ∧ m.Markdown.Text = "<font color=#008000 size=5 >上线通知 </font>  \n\n **开始时间**："
          ++ f1 shanghaiRuntime ⟨1700000000⟩ ++ " \n\n **结束时间**："
          ++ f1 shanghaiRuntime ⟨1700000300⟩ ++ rest)
    ∧ f1 shanghaiRuntime ⟨1700000000⟩ = "2023-11-15 06:13:20"
    ∧ f1 shanghaiRuntime ⟨1700000300⟩ = "2023-11-15 06:18:20"
    ∧ f1 shanghaiRuntime ⟨0⟩ = "1970-01-01 08:00:00" :=
  have h := autorelease_times_in_Shanghai shanghaiRuntime ⟨"tok", "", ""⟩
    (timedAutoRelease 1700000000 1700000300)
    ⟨⟨[⟨⟨some "ns:deployment/a"⟩, ⟨"c", ⟨"img:1"⟩⟩, ⟨"img:2"⟩⟩]⟩⟩ rfl (fun _ => rfl)
  ⟨(h.1 _ timedAutoRelease_message).elim
      (fun rest hr => ⟨_, rest, timedAutoRelease_message, hr⟩),
    by decide, by decide, h.2.2.2⟩

/-- Claim C18, refuted as written: the zero time, 0001-01-01T00:00:00Z, is
printed on the local mean time of Shanghai, 8 h 5 min 43 s east of UTC, and
1988-07-01T00:00:00Z on the daylight saving time of that summer, nine hours
east; eight hours east they are 08:00:00. -/
theorem autorelease_times_not_always_utc8 :
    NewDingTalkMessage shanghaiRuntime ⟨"tok", "", ""⟩
        (timedAutoRelease (-62135596800) 583718400)
      = .ok (some
        { Msgtype := "markdown"
          Markdown :=
            { Title := "EventAutoRelease"
              Text := "<font color=#008000 size=5 >上线通知 </font>  \n\n **开始时间**："
                ++ "0001-01-01 08:05:43" ++ " \n\n **结束时间**：" ++ "1988-07-01 09:00:00"
                ++ "  \n\n **上线应用**：\n\n ns:deployment/a \n\n **新镜像**：img:2"
                ++ " \n\n **旧镜像**: img:1" }
          At := { AtMobiles := [], AtUserIds := [], IsAtAll := false } })
    ∧ (Time.In ⟨-62135596800⟩ (time.FixedZone "UTC+8" 28800)).Format = "0001-01-01 08:00:00"
    ∧ (Time.In ⟨583718400⟩ (time.FixedZone "UTC+8" 28800)).Format = "1988-07-01 08:00:00" := by
  refine ⟨?_, by decide, by decide⟩
  rw [NewDingTalkMessage_autoRelease shanghaiRuntime ⟨"tok", "", ""⟩
    (timedAutoRelease (-62135596800) 583718400)
    ⟨⟨[⟨⟨some "ns:deployment/a"⟩, ⟨"c", ⟨"img:1"⟩⟩, ⟨"img:2"⟩⟩]⟩⟩
    ⟨⟨some "ns:deployment/a"⟩, ⟨"c", ⟨"img:1"⟩⟩, ⟨"img:2"⟩⟩ [] ["ns:deployment/a"] rfl rfl rfl]
  have e1 : f1 shanghaiRuntime (timedAutoRelease (-62135596800) 583718400).Event.StartedAt
      = "0001-01-01 08:05:43" := by decide
  have e2 : f1 shanghaiRuntime (timedAutoRelease (-62135596800) 583718400).Event.EndedAt
      = "1988-07-01 09:00:00" := by decide
  rw [e1, e2]
  rfl

/-! ## The tokens of the directive -/

theorem AtMobiles_inv (rt : Runtime) (d : DingTalk) (message : Message)
    (m : DingTalkMessage) (h : NewDingTalkMessage rt d message = .ok (some m))
    (hne : m.At.AtMobiles ≠ []) :
    m.At.AtMobiles = strings.Split (strings.TrimSpace d.AtNum) " "
      ∧ strings.TrimSpace d.AtNum ≠ ""
      ∧ strings.Contains (strings.TrimSpace d.AtNum) "  " = false := by
  unfold NewDingTalkMessage at h
  match hmd : message.Event.Metadata with
  | none => simp [hmd] at h
  | some .Commit =>
    simp [hmd, EventMetadata.Type, EventCommit, EventAutoRelease, EventSync] at h
  | some .Release =>
    simp [hmd, EventMetadata.Type, EventRelease, EventAutoRelease, EventSync] at h
  | some .Unknown =>
    simp [hmd, EventMetadata.Type, EventAutoRelease, EventSync] at h
  | some (.AutoRelease a) =>
    simp only [hmd, EventMetadata.Type, if_true, EventMetadata.assertAutoRelease] at h
    cases hc : a.Spec.Changes[0]? with
    | none => simp [hc] at h
    | some c =>
      simp only [hc] at h
      split at h
      · simp at h
      · simp only [Except.ok.injEq, Option.some.injEq] at h
        subst h
        simp [DingTalkMessage.zero] at hne
  | some (.Sync s) =>
    simp only [hmd, EventMetadata.Type, EventSync_ne_EventAutoRelease, if_false, if_true,
      EventMetadata.assertSync] at h
    split_ifs at h with k1 k2 k3 k4 k5 k6 <;>
      simp only [Except.ok.injEq, Option.some.injEq, reduceCtorEq] at h <;>
      subst h <;> simp [DingTalkMessage.zero] at hne ⊢
    simp at k6
    exact ⟨k2, by simpa using k6.2⟩

theorem genSplit_space_no_space (s acc : List Char) (hacc : ' ' ∉ acc) :
    ∀ tok ∈ strings.genSplit [' '] 0 acc s, ' ' ∉ tok := by
  induction s generalizing acc with
  | nil =>
    intro tok h
    simp only [strings.genSplit, List.mem_singleton] at h
    subst h
    simpa using hacc
  | cons c t ih =>
    intro tok h
    by_cases hc : c = ' '
    · subst hc
      simp only [strings.genSplit, List.isPrefixOf, beq_self_eq_true, Bool.true_and, if_true,
        List.length_singleton, Nat.sub_self, List.mem_cons] at h
      rcases h with h | h
      · subst h
        simpa using hacc
      · exact ih [] (by simp) tok h
    · have hc2 : (' ' == c) = false := by
        simp only [beq_eq_false_iff_ne, ne_eq]
        exact fun e => hc e.symm
      simp only [strings.genSplit, List.isPrefixOf, hc2, Bool.false_and, Bool.false_eq_true,
        if_false] at h
      refine ih (c :: acc) ?_ tok h
      simp only [List.mem_cons, not_or]
      exact ⟨fun e => hc e.symm, hacc⟩

theorem genSplit_ne_nil (sep : List Char) (s : List Char) :
    ∀ (skip : Nat) (acc : List Char), strings.genSplit sep skip acc s ≠ [] := by
  induction s with
  | nil => intro skip acc; simp [strings.genSplit]
  | cons c t ih =>
    intro skip acc
    cases skip with
    | succ k => simpa [strings.genSplit] using ih k acc
    | zero =>
      simp only [strings.genSplit]
      split
      · simp
      · exact ih 0 (c :: acc)

theorem intercalate_cons_cons (sep a b : List Char) (l : List (List Char)) :
    sep.intercalate (a :: b :: l) = a ++ sep ++ sep.intercalate (b :: l) := by
  simp [List.intercalate, List.intersperse]

theorem genSplit_space_intercalate (s acc : List Char) :
    [' '].intercalate (strings.genSplit [' '] 0 acc s) = acc.reverse ++ s := by
  induction s generalizing acc with
  | nil => simp [strings.genSplit, List.intercalate]
  | cons c t ih =>
    by_cases hc : c = ' '
    · subst hc
      have := ih []
      simp only [strings.genSplit, List.isPrefixOf, beq_self_eq_true, Bool.true_and, if_true,
        List.length_singleton, Nat.sub_self]
      cases hg : strings.genSplit [' '] 0 [] t with
      | nil => exact absurd hg (genSplit_ne_nil _ _ _ _)
      | cons g gs =>
        rw [hg] at this
        rw [intercalate_cons_cons, this]
        simp
    · have hc2 : (' ' == c) = false := by
        simp only [beq_eq_false_iff_ne, ne_eq]
        exact fun e => hc e.symm
      simp only [strings.genSplit, List.isPrefixOf, hc2, Bool.false_and, Bool.false_eq_true,
        if_false]
      rw [ih (c :: acc)]
      simp

theorem Join_mk (sep : List Char) (l : List (List Char)) :
    strings.Join (l.map String.mk) ⟨sep⟩ = ⟨sep.intercalate l⟩ := by
  induction l with
  | nil => rfl
  | cons a t ih =>
    cases t with
    | nil => simp [strings.Join, List.intercalate]
    | cons b r =>
      rw [intercalate_cons_cons]
      simp only [List.map_cons, strings.Join] at ih ⊢
      rw [ih]
      apply String.ext
      simp [String.data_append]

theorem genSplit_space_ne_nil (s acc : List Char)
    (hhead : acc ≠ [] ∨ ∃ c t, s = c :: t ∧ c ≠ ' ')
    (hlast : s.getLast? ≠ some ' ')
    (hdouble : strings.occursIn [' ', ' '] s = false) :
    ∀ tok ∈ strings.genSplit [' '] 0 acc s, tok ≠ [] := by
  induction s generalizing acc with
  | nil =>
    intro tok h
    simp only [strings.genSplit, List.mem_singleton] at h
    subst h
    rcases hhead with h | ⟨c, t, h, _⟩
    · simpa using h
    · cases h
  | cons c t ih =>
    intro tok h
    have hd : strings.occursIn [' ', ' '] t = false := by
      cases t with
      | nil => rfl
      | cons x r =>
        simp only [strings.occursIn, Bool.or_eq_false_iff] at hdouble ⊢
        exact hdouble.2
    have hl : t.getLast? ≠ some ' ' := by
      cases t with
      | nil => simp
      | cons x r => simpa [List.getLast?_cons_cons] using hlast
    by_cases hc : c = ' '
    · subst hc
      simp only [strings.genSplit, List.isPrefixOf, beq_self_eq_true, Bool.true_and, if_true,
        List.length_singleton, Nat.sub_self, List.mem_cons] at h
      have hacc : acc ≠ [] := by
        rcases hhead with h' | ⟨c, t', h', hne⟩
        · exact h'
        · simp only [List.cons.injEq] at h'
          exact absurd h'.1.symm hne
      rcases h with h | h
      · subst h
        simpa using hacc
      · refine ih [] (Or.inr ?_) hl hd tok h
        cases t with
        | nil => simp at hlast
        | cons x r =>
          refine ⟨x, r, rfl, ?_⟩
          intro hx
          subst hx
          simp [strings.occursIn, List.isPrefixOf] at hdouble
    · have hc2 : (' ' == c) = false := by
        simp only [beq_eq_false_iff_ne, ne_eq]
        exact fun e => hc e.symm
      simp only [strings.genSplit, List.isPrefixOf, hc2, Bool.false_and, Bool.false_eq_true,
        if_false] at h
      exact ih (c :: acc) (Or.inl (by simp)) hl hd tok h

theorem TrimSpace_head (s : String) (c : Char) (t : List Char)
    (h : (strings.TrimSpace s).data = c :: t) : unicode.IsSpace c = false := by
  simp only [strings.TrimSpace] at h
  have hp : (c :: t) <+: s.data.dropWhile unicode.IsSpace := by
    rw [← h]
    exact List.rdropWhile_prefix _ _
  obtain ⟨r, hr⟩ := hp
  have hne : s.data.dropWhile unicode.IsSpace ≠ [] := by
    rw [← hr]
    simp
  have := List.head_dropWhile_not unicode.IsSpace s.data hne
  simp only [← hr, List.cons_append, List.head_cons] at this
  simpa using this

theorem TrimSpace_last (s : String) :
    (strings.TrimSpace s).data.getLast? ≠ some ' ' := by
  simp only [strings.TrimSpace]
  intro h
  have hne : (s.data.dropWhile unicode.IsSpace).rdropWhile unicode.IsSpace ≠ [] := by
    intro e
    rw [e] at h
    simp at h
  have := List.rdropWhile_last_not unicode.IsSpace _ hne
  rw [List.getLast?_eq_getLast _ hne] at h
  simp only [Option.some.injEq] at h
  rw [h] at this
  exact this (by decide)

/-- Claim C19: Whenever a returned message names mobiles to mention, every
token in the list is a non-empty string without a space, and the tokens
joined by single spaces are the directive without its leading and trailing
white space. -/
theorem mention_tokens_well_delimited (rt : Runtime) (d : DingTalk) (message : Message)
    (m : DingTalkMessage) (h : NewDingTalkMessage rt d message = .ok (some m))
    (hne : m.At.AtMobiles ≠ []) :
    (∀ tok ∈ m.At.AtMobiles, tok ≠ "" ∧ ' ' ∉ tok.data)
      ∧ strings.Join m.At.AtMobiles " " = strings.TrimSpace d.AtNum := by
  obtain ⟨e, h1, h2⟩ := AtMobiles_inv rt d message m h hne
  have hs : strings.Split (strings.TrimSpace d.AtNum) " "
      = (strings.genSplit [' '] 0 [] (strings.TrimSpace d.AtNum).data).map String.mk := by
    simp [strings.Split]
  rw [e, hs]
  constructor
  · intro tok htok
    obtain ⟨l, hl, rfl⟩ := List.mem_map.mp htok
    constructor
    · intro hemp
      have hdata : (strings.TrimSpace d.AtNum).data ≠ [] := by
        intro hd
        exact h1 (String.ext hd)
      refine genSplit_space_ne_nil _ [] (Or.inr ?_) (TrimSpace_last _) h2 l hl ?_
      · cases hd : (strings.TrimSpace d.AtNum).data with
        | nil => exact absurd hd hdata
        | cons c t =>
          refine ⟨c, t, rfl, ?_⟩
          intro hc
          have := TrimSpace_head _ c t hd
          rw [hc] at this
          exact absurd this (by decide)
      · simpa using congrArg String.data hemp
    · exact genSplit_space_no_space _ [] (by simp) l hl
  · have := Join_mk [' '] (strings.genSplit [' '] 0 [] (strings.TrimSpace d.AtNum).data)
    rw [show (" " : String) = ⟨[' ']⟩ from rfl, this, genSplit_space_intercalate]
    simp

theorem mention_tokens_well_delimited_witness :
    (∀ tok ∈ ["13800000000", "13900000000"], tok ≠ "" ∧ ' ' ∉ tok.data)
      ∧ strings.Join ["13800000000", "13900000000"] " "
        = strings.TrimSpace "  13800000000 13900000000 " :=
  mention_tokens_well_delimited sampleRuntime ⟨"tok", "", "  13800000000 13900000000 "⟩
    (syncEvent ["disk full"])
    { Msgtype := "markdown"
      Markdown :=
        { Title := "Sync errors"
          Text := "<font color=#FF0000 size=5 >同步错误，开发忽略！！！ </font>    \n\n **错误信息**：disk full \n\n @13800000000 @13900000000 " }
      At := { AtMobiles := ["13800000000", "13900000000"], AtUserIds := [], IsAtAll := false } }
    rfl (by decide)

/-! ## The mention text -/

theorem sync_message_form (rt : Runtime) (d : DingTalk) (message : Message)
    (s : SyncEventMetadata) (hm : message.Event.Metadata = some (.Sync s))
    (he : s.Errors ≠ []) :
    ∃ atStr msgAt, NewDingTalkMessage rt d message = .ok (some
        { Msgtype := "markdown"
          Markdown :=
            { Title := "Sync errors"
              Text := "<font color=#FF0000 size=5 >同步错误，开发忽略！！！ </font>    \n\n **错误信息**："
                ++ strings.Join (s.Errors.map (fun v => v.Error)) "\n\n"
                ++ " \n\n " ++ atStr ++ " " }
          At := msgAt })
      ∧ ((atStr = "" ∧ msgAt.AtMobiles = [])
        ∨ (msgAt.AtMobiles = strings.Split (strings.TrimSpace d.AtNum) " "
          ∧ atStr = "@" ++ strings.Join msgAt.AtMobiles " @")) := by
  have hlen : s.Errors.length > 0 := List.length_pos.mpr he
  simp only [NewDingTalkMessage, hm, EventMetadata.Type, EventSync_ne_EventAutoRelease,
    if_false, if_true, EventMetadata.assertSync, hlen]
  split_ifs
  · exact ⟨_, _, rfl, Or.inl ⟨rfl, rfl⟩⟩
  · exact ⟨_, _, rfl, Or.inl ⟨rfl, rfl⟩⟩
  · exact ⟨_, _, rfl, Or.inl ⟨rfl, rfl⟩⟩
  · exact ⟨_, _, rfl, Or.inl ⟨rfl, rfl⟩⟩
  · exact ⟨_, _, rfl, Or.inr ⟨rfl, rfl⟩⟩
  · exact ⟨_, _, rfl, Or.inl ⟨rfl, rfl⟩⟩

theorem Join_at (a : String) (l : List String) :
    "@" ++ strings.Join (a :: l) " @"
      = strings.Join ((a :: l).map (fun tok => "@" ++ tok)) " " := by
  induction l generalizing a with
  | nil => rfl
  | cons b r ih =>
    simp only [strings.Join, List.map_cons] at ih ⊢
    rw [← ih b]
    apply String.ext
    simp [String.data_append]

/-- Claim C20, as the code has it: for every sync event with at least one
error the body is the heading, the error list, the separator, the mention
text and one space, so it ends with the mention text followed by a single
space. When mobiles are mentioned the mention text is every token with `@`
in front, joined by single spaces; when nobody or everybody is mentioned it
is empty. -/
theorem sync_body_ends_with_mention_and_space (rt : Runtime) (d : DingTalk)
    (message : Message) (s : SyncEventMetadata)
    (hm : message.Event.Metadata = some (.Sync s)) (he : s.Errors ≠ []) :
    ∃ m mention, NewDingTalkMessage rt d message = .ok (some m)
      ∧ m.Markdown.Text =
          "<font color=#FF0000 size=5 >同步错误，开发忽略！！！ </font>    \n\n **错误信息**："
            ++ strings.Join (s.Errors.map (fun v => v.Error)) "\n\n"
            ++ " \n\n " ++ mention ++ " "
      ∧ (m.At.AtMobiles ≠ [] →
          mention = strings.Join (m.At.AtMobiles.map (fun tok => "@" ++ tok)) " ")
      ∧ (m.At.AtMobiles = [] → mention = "") := by
  obtain ⟨atStr, msgAt, h, hcase⟩ := sync_message_form rt d message s hm he
  refine ⟨_, atStr, h, rfl, ?_, ?_⟩
  · intro hne
    rcases hcase with ⟨_, h2⟩ | ⟨_, h2⟩
    · exact absurd h2 hne
    · simp only at hne ⊢
      rw [h2]
      cases hl : msgAt.AtMobiles with
      | nil => exact absurd hl hne
      | cons a l => exact Join_at a l
  · intro hnil
    rcases hcase with ⟨h1, _⟩ | ⟨h1, h2⟩
    · exact h1
    · have hsplit : strings.Split (strings.TrimSpace d.AtNum) " " ≠ [] := by
        simp only [strings.Split]
        rw [if_neg (by decide)]
        simp only [ne_eq, List.map_eq_nil_iff]
        exact genSplit_ne_nil _ _ _ _
      simp only at hnil
      rw [hnil] at h1
      exact absurd h1.symm hsplit

theorem sync_body_ends_with_mention_and_space_witness :
    ∃ m mention, NewDingTalkMessage sampleRuntime ⟨"tok", "", "a b"⟩ (syncEvent ["disk full"])
        = .ok (some m)
      ∧ m.Markdown.Text =
          "<font color=#FF0000 size=5 >同步错误，开发忽略！！！ </font>    \n\n **错误信息**："
            ++ strings.Join ["disk full"] "\n\n"
            ++ " \n\n " ++ mention ++ " "
      ∧ (m.At.AtMobiles ≠ [] →
          mention = strings.Join (m.At.AtMobiles.map (fun tok => "@" ++ tok)) " ")
      ∧ (m.At.AtMobiles = [] → mention = "") :=
  sync_body_ends_with_mention_and_space sampleRuntime ⟨"tok", "", "a b"⟩
    (syncEvent ["disk full"]) { Errors := [⟨⟨none⟩, "", "disk full"⟩] } rfl (by decide)

/-- Claim C20, refuted as written: for the directive `a b` the mention text
is `@a @b`, and the body ends with a space after it, not with it. -/
theorem sync_body_does_not_end_with_mention :
    NewDingTalkMessage sampleRuntime ⟨"tok", "", "a b"⟩ (syncEvent ["disk full"])
        = .ok (some
          { Msgtype := "markdown"
            Markdown :=
              { Title := "Sync errors"
                Text := "<font color=#FF0000 size=5 >同步错误，开发忽略！！！ </font>    \n\n **错误信息**：disk full \n\n @a @b " }
            At := { AtMobiles := ["a", "b"], AtUserIds := [], IsAtAll := false } })
    ∧ ("@a @b".data.isSuffixOf
        "<font color=#FF0000 size=5 >同步错误，开发忽略！！！ </font>    \n\n **错误信息**：disk full \n\n @a @b ".data)
        = false
    ∧ ("@a @b ".data.isSuffixOf
        "<font color=#FF0000 size=5 >同步错误，开发忽略！！！ </font>    \n\n **错误信息**：disk full \n\n @a @b ".data)
        = true :=
  ⟨rfl, by decide, by decide⟩
